import Mathlib

/-!
Verification of the Kaleidoscope front-end (lexer, Pratt parser, operator
table, LLVM-IR code generator) against its natural-language specification.

The C++ sources are shallowly embedded:
* characters stream in as `List Char`, the lexer's one-character lookahead
  (`static int LastChar`) is an explicit `Option Char` argument (`none` = EOF);
* the token stream is a `List Token` whose head plays the role of `CurTok`;
* `double` values are carried as exact rationals (`ℚ`); no claim depends on
  floating-point rounding, the numbers are only stored and moved around;
* the process-wide globals (`BinopPrecedence`, `TheModule`, `NamedValues`,
  the IR builder) are threaded explicitly through the functions that use them;
* fallible C++ functions that return a null pointer are modelled with
  `Option` / a `null` result constructor.
-/

namespace Kaleidoscope

/-! ## Lexer (src/lexer.h, src/lexer.cc) -/

/-- The C character classifier `isspace` restricted to ASCII inputs. -/
def isspace (c : Char) : Bool :=
  c = ' ' || c = '\t' || c = '\n' || c = '\x0d' || c = '\x0b' || c = '\x0c'

/-- `isalpha`: `[A-Za-z]`. -/
def isalpha (c : Char) : Bool :=
  ('A' ≤ c && c ≤ 'Z') || ('a' ≤ c && c ≤ 'z')

/-- `isdigit`: `[0-9]`. -/
def isdigit (c : Char) : Bool :=
  '0' ≤ c && c ≤ '9'

/-- `isalnum`: `[A-Za-z0-9]`. -/
def isalnum (c : Char) : Bool :=
  isalpha c || isdigit c

/-- `getchar()`: pop the next character from the input; `none` is EOF. -/
def getchar : List Char → Option Char × List Char
  | [] => (none, [])
  | c :: rest => (some c, rest)

/-- The tokens of `enum Token` in src/lexer.h, with the payloads that the
C++ keeps in the globals `IdentifierStr` / `NumVal` attached to the
variants that use them, and `tok_char` for the positive codes ("eat and
return the character").  `tok_xtern` models the enum's keyword token for
the string "extern" (spelled differently here only because of a lexical
restriction on Lean names in this development). -/
inductive Token where
  | tok_eof
  | tok_def
  | tok_xtern
  | tok_if
  | tok_then
  | tok_else
  | tok_for
  | tok_in
  | tok_binary
  | tok_unary
  | tok_var
  | tok_identifier (s : String)
  | tok_number (v : ℚ)
  | tok_char (c : Char)
deriving DecidableEq

/-- The whitespace-skipping loop at the top of `gettok`:
`while (isspace(LastChar)) LastChar = getchar();`. -/
def skipSpace (lc : Option Char) (input : List Char) : Option Char × List Char :=
  match lc with
  | none => (none, input)
  | some c =>
    if isspace c then
      match input with
      | [] => (none, [])
      | d :: rest => skipSpace (some d) rest
    else (some c, input)

/-- The identifier accumulation loop:
`while (isalnum(LastChar = getchar())) IdentifierStr += LastChar;`.
`acc` already holds the first (alphabetic) character. -/
def readIdent (acc : String) : List Char → String × Option Char × List Char
  | [] => (acc, none, [])
  | c :: rest =>
    if isalnum c then readIdent (acc.push c) rest
    else (acc, some c, rest)

/-- The number accumulation loop (a do/while):
`do { NumStr += LastChar; LastChar = getchar(); } while (isdigit || '.');`. -/
def readNum (acc : String) (lc : Char) : List Char → String × Option Char × List Char
  | [] => ((acc.push lc), none, [])
  | c :: rest =>
    if isdigit c || c = '.' then readNum (acc.push lc) c rest
    else ((acc.push lc), some c, rest)

/-- The comment loop:
`do { LastChar = getchar(); } while (LastChar != EOF && != '\n' && != '\r');`. -/
def skipComment : List Char → Option Char × List Char
  | [] => (none, [])
  | c :: rest =>
    if c = '\n' || c = '\x0d' then (some c, rest)
    else skipComment rest

/-- Numeric value of an ASCII digit. -/
def digitVal (c : Char) : ℕ := c.toNat - '0'.toNat

/-- Digit string to natural number, most significant first. -/
def digitsToNat (ds : List Char) : ℕ :=
  ds.foldl (fun a c => a * 10 + digitVal c) 0

/-- `strtod(NumStr.c_str(), 0)` restricted to the `[0-9.]+` strings the
lexer accumulates: an integer part, optionally a dot and a fraction part;
anything after a second dot is ignored, exactly as `strtod` stops there.
The double is modelled as an exact rational. -/
def strtod (s : String) : ℚ :=
  let cs := s.toList
  let ds := cs.takeWhile isdigit
  let rest := cs.dropWhile isdigit
  match rest with
  | '.' :: rest2 =>
    let fs := rest2.takeWhile isdigit
    (digitsToNat ds : ℚ) + (digitsToNat fs : ℚ) / ((10 : ℚ) ^ fs.length)
  | _ => (digitsToNat ds : ℚ)

/-- The keyword test in `gettok`'s identifier branch (src/lexer.cc:19-27).
Note the C++ compares against exactly seven keywords: `binary`, `unary`
and `var` are NOT among them, although src/lexer.h declares the tokens. -/
def keywordOf (s : String) : Token :=
  if s = "def" then Token.tok_def
  else if s = "extern" then Token.tok_xtern
  else if s = "if" then Token.tok_if
  else if s = "then" then Token.tok_then
  else if s = "else" then Token.tok_else
  else if s = "for" then Token.tok_for
  else if s = "in" then Token.tok_in
  else Token.tok_identifier s

/-- `gettok()` (src/lexer.cc:6-60).  State `(lastChar, input)` models the
static lookahead plus the unread input.  `fuel` bounds the self-recursion
after a comment (the C++ recursion always consumes input, so any
`fuel ≥ input.length` reproduces it; no claim touches the fuel-0 arm). -/
def gettok (fuel : Nat) (lc0 : Option Char) (input0 : List Char) :
    Token × Option Char × List Char :=
  let s := skipSpace lc0 input0
  match s with
  | (none, input) => (Token.tok_eof, none, input)
  | (some c, input) =>
    if isalpha c then
      let r := readIdent (String.mk [c]) input
      (keywordOf r.1, r.2.1, r.2.2)
    else if isdigit c || c = '.' then
      let r := readNum "" c input
      (Token.tok_number (strtod r.1), r.2.1, r.2.2)
    else if c = '#' then
      match skipComment input with
      | (some c', input') =>
        match fuel with
        | 0 => (Token.tok_eof, some c', input')
        | fuel' + 1 => gettok fuel' (some c') input'
      | (none, input') => (Token.tok_eof, none, input')
    else
      let r := getchar input
      (Token.tok_char c, r.1, r.2)

/-! ## Operator-precedence table (src/codegen.h, src/codegen.cc:30)

`std::map<char, int> BinopPrecedence` is modelled as an association list;
crucially `operator[]` default-inserts a zero entry when the key is
absent, which `tableGetDefault` reproduces. -/

/-- `BinopPrecedence`'s type. -/
abbrev Table := List (Char × Int)

/-- `map::find`-style lookup (no insertion). -/
def tableLookup : Table → Char → Option Int
  | [], _ => none
  | (k, v) :: rest, c => if k = c then some v else tableLookup rest c

/-- `BinopPrecedence[c]` as an rvalue: `std::map::operator[]` returns the
mapped value, default-inserting `int()` (= 0) when the key is absent. -/
def tableGetDefault (t : Table) (c : Char) : Int × Table :=
  match tableLookup t c with
  | some v => (v, t)
  | none => (0, t ++ [(c, 0)])

/-- `BinopPrecedence[c] = v`: overwrite the first entry or append. -/
def tableSet : Table → Char → Int → Table
  | [], c, v => [(c, v)]
  | (k, w) :: rest, c, v =>
    if k = c then (c, v) :: rest else (k, w) :: tableSet rest c v

/-- `BinopPrecedence.erase(c)`: drop the entry for `c`. -/
def tableErase : Table → Char → Table
  | [], _ => []
  | (k, v) :: rest, c =>
    if k = c then tableErase rest c else (k, v) :: tableErase rest c

/-- The preloaded table installed by `main` (src/parser.cc:477-481). -/
def preloadedTable : Table :=
  [('=', 2), ('<', 10), ('+', 20), ('-', 20), ('*', 40)]

/-- `isascii(CurTok)`: the token codes are non-negative (hence a plain
character) exactly for the `tok_char` variant with code ≤ 127; the keyword
and payload tokens all have negative codes. -/
def isasciiTok : Token → Option Char
  | Token.tok_char c => if c.toNat ≤ 127 then some c else none
  | _ => none

/-- `GetTokPrecedence()` (src/parser.cc:246-254).  Reading
`BinopPrecedence[CurTok]` can grow the table, so the table is returned. -/
def getTokPrecedence (t : Table) (tok : Token) : Int × Table :=
  match isasciiTok tok with
  | none => (-1, t)
  | some c =>
    let r := tableGetDefault t c
    if r.1 ≤ 0 then (-1, r.2) else (r.1, r.2)

/-- The precedence the table assigns to `c` (0 when absent); convenience
for stating theorems. -/
def precOf (t : Table) (c : Char) : Int :=
  match tableLookup t c with
  | some v => v
  | none => 0

/-! ## AST (src/ast.h) -/

/-- `ExprAST` and its subclasses as one sum type.  `for_`'s step and each
`var` initializer are nullable in the C++ (`ExprAST*` that may be NULL),
hence `Option`. -/
inductive Expr where
  | num (v : ℚ)
  | var (name : String)
  | bin (op : Char) (lhs rhs : Expr)
  | un (opcode : Char) (operand : Expr)
  | call (callee : String) (args : List Expr)
  | ite_ (cond then_ else_ : Expr)
  | for_ (varName : String) (start stop : Expr) (step : Option Expr) (body : Expr)
  | varIn (varNames : List (String × Option Expr)) (body : Expr)

/-- `PrototypeAST` (src/ast.h:134-158). -/
structure PrototypeAST where
  name : String
  args : List String
  isOperator : Bool
  precedence : Nat

/-- `PrototypeAST::isUnaryOp`. -/
def PrototypeAST.isUnaryOp (p : PrototypeAST) : Bool :=
  p.isOperator && p.args.length = 1

/-- `PrototypeAST::isBinaryOp`. -/
def PrototypeAST.isBinaryOp (p : PrototypeAST) : Bool :=
  p.isOperator && p.args.length = 2

/-- `PrototypeAST::getOperatorName` (src/ast.cc:19-22): the last character
of the name (the C++ asserts the prototype is an operator). -/
def PrototypeAST.getOperatorName (p : PrototypeAST) : Char :=
  p.name.toList.getLastD ' '

/-- `FunctionAST`. -/
structure FunctionAST where
  proto : PrototypeAST
  body : Expr

/-! ## Parser (src/parser.cc)

The parser state bundles the unread token stream (its head is `CurTok`,
dropping the head is `getNextToken()`), the shared `BinopPrecedence`
table (read — and possibly grown — by `GetTokPrecedence`), and the lines
printed to stderr by the `Error*` helpers.  A NULL return is `none`; the
global state mutations survive an error, as in the C++. -/

structure PState where
  toks : List Token
  table : Table
  errors : List String
deriving DecidableEq

/-- `CurTok`: the head of the stream (`tok_eof` once input is exhausted,
matching rule 5 of the lexer: repeated calls keep returning EOF). -/
def curTok (ts : List Token) : Token :=
  ts.headD Token.tok_eof

/-- `getNextToken()` applied to the stream. -/
def eat (st : PState) : PState :=
  { st with toks := st.toks.tail }

/-- `Error(Str)` (src/parser.cc:36-39): print to stderr, return NULL. -/
def perror (st : PState) (msg : String) : Option Expr × PState :=
  (none, { st with errors := st.errors ++ [msg] })

mutual

/-- `ParseExpression` (src/parser.cc:296-301). -/
def parseExpression : Nat → PState → Option Expr × PState
  | 0, st => (none, st)
  | fuel + 1, st =>
    match parseUnary fuel st with
    | (none, st) => (none, st)
    | (some lhs, st) => parseBinOpRHS fuel 0 lhs st

/-- `ParseUnary` (src/parser.cc:231-243). -/
def parseUnary : Nat → PState → Option Expr × PState
  | 0, st => (none, st)
  | fuel + 1, st =>
    match isasciiTok (curTok st.toks) with
    | none => parsePrimary fuel st
    | some c =>
      if c = '(' || c = ',' then parsePrimary fuel st
      else
        match parseUnary fuel (eat st) with
        | (some operand, st) => (some (Expr.un c operand), st)
        | (none, st) => (none, st)

/-- `ParsePrimary` (src/parser.cc:218-228). -/
def parsePrimary : Nat → PState → Option Expr × PState
  | 0, st => (none, st)
  | fuel + 1, st =>
    match curTok st.toks with
    | Token.tok_if => parseIfExpr fuel st
    | Token.tok_for => parseForExpr fuel st
    | Token.tok_var => parseVarExpr fuel st
    | Token.tok_identifier _ => parseIdentifierExpr fuel st
    | Token.tok_number v => (some (Expr.num v), eat st)
    | Token.tok_char c =>
      if c = '(' then parseParenExpr fuel st
      else perror st "unknown token when expecting an expression"
    | _ => perror st "unknown token when expecting an expression"

/-- `ParseParenExpr` (src/parser.cc:60-70). -/
def parseParenExpr : Nat → PState → Option Expr × PState
  | 0, st => (none, st)
  | fuel + 1, st =>
    match parseExpression fuel (eat st) with
    | (none, st) => (none, st)
    | (some v, st) =>
      if curTok st.toks ≠ Token.tok_char ')' then perror st "expected ')'"
      else (some v, eat st)

/-- `ParseIdentifierExpr` (src/parser.cc:73-105).  Only reached with
`CurTok = tok_identifier`; the catch-all arm is unreachable. -/
def parseIdentifierExpr : Nat → PState → Option Expr × PState
  | 0, st => (none, st)
  | fuel + 1, st =>
    match curTok st.toks with
    | Token.tok_identifier idName =>
      let st := eat st
      if curTok st.toks ≠ Token.tok_char '(' then (some (Expr.var idName), st)
      else
        let st := eat st
        if curTok st.toks = Token.tok_char ')' then
          (some (Expr.call idName []), eat st)
        else parseArgsLoop fuel idName [] st
    | _ => (none, st)

/-- The argument loop of `ParseIdentifierExpr` (src/parser.cc:87-98),
followed by eating the `')'`. -/
def parseArgsLoop : Nat → String → List Expr → PState → Option Expr × PState
  | 0, _, _, st => (none, st)
  | fuel + 1, idName, acc, st =>
    match parseExpression fuel st with
    | (none, st) => (none, st)
    | (some arg, st) =>
      let acc := acc ++ [arg]
      if curTok st.toks = Token.tok_char ')' then
        (some (Expr.call idName acc), eat st)
      else if curTok st.toks ≠ Token.tok_char ',' then
        perror st "Expected ')' or ',' in argument list"
      else parseArgsLoop fuel idName acc (eat st)

/-- `ParseIfExpr` (src/parser.cc:108-127). -/
def parseIfExpr : Nat → PState → Option Expr × PState
  | 0, st => (none, st)
  | fuel + 1, st =>
    match parseExpression fuel (eat st) with
    | (none, st) => (none, st)
    | (some c, st) =>
      if curTok st.toks ≠ Token.tok_then then perror st "expected then"
      else
        match parseExpression fuel (eat st) with
        | (none, st) => (none, st)
        | (some t, st) =>
          if curTok st.toks ≠ Token.tok_else then perror st "Expected else"
          else
            match parseExpression fuel (eat st) with
            | (none, st) => (none, st)
            | (some e, st) => (some (Expr.ite_ c t e), st)

/-- `ParseForExpr` (src/parser.cc:130-171). -/
def parseForExpr : Nat → PState → Option Expr × PState
  | 0, st => (none, st)
  | fuel + 1, st =>
    let st := eat st
    match curTok st.toks with
    | Token.tok_identifier idName =>
      let st := eat st
      if curTok st.toks ≠ Token.tok_char '=' then perror st "Expected '=' in for loop"
      else
        match parseExpression fuel (eat st) with
        | (none, st) => (none, st)
        | (some start, st) =>
          if curTok st.toks ≠ Token.tok_char ',' then
            perror st "Expected ',' after start value in for loop"
          else
            match parseExpression fuel (eat st) with
            | (none, st) => (none, st)
            | (some stop, st) =>
              match parseForStep fuel st with
              | (none, true, st) => (none, st)
              | (step, false, st) =>
                if curTok st.toks ≠ Token.tok_in then
                  perror st "Expected 'in' in for loop"
                else
                  match parseExpression fuel (eat st) with
                  | (none, st) => (none, st)
                  | (some body, st) =>
                    (some (Expr.for_ idName start stop step body), st)
              | (some _, true, st) => (none, st)
    | _ => perror st "Expected identifier after 'for'"

/-- The optional step of `ParseForExpr` (src/parser.cc:156-161).  The
middle component flags a parse failure inside the step expression. -/
def parseForStep : Nat → PState → Option Expr × Bool × PState
  | 0, st => (none, true, st)
  | fuel + 1, st =>
    if curTok st.toks = Token.tok_char ',' then
      match parseExpression fuel (eat st) with
      | (none, st) => (none, true, st)
      | (some step, st) => (some step, false, st)
    else (none, false, st)

/-- `ParseVarExpr` (src/parser.cc:175-215). -/
def parseVarExpr : Nat → PState → Option Expr × PState
  | 0, st => (none, st)
  | fuel + 1, st =>
    let st := eat st
    match curTok st.toks with
    | Token.tok_identifier _ => parseVarList fuel [] st
    | _ => perror st "expected identifier after var"

/-- The binding-list loop of `ParseVarExpr` (src/parser.cc:185-214),
entered with `CurTok` a `tok_identifier`, followed by the `'in'` check and
the body. -/
def parseVarList : Nat → List (String × Option Expr) → PState → Option Expr × PState
  | 0, _, st => (none, st)
  | fuel + 1, acc, st =>
    match curTok st.toks with
    | Token.tok_identifier name =>
      let st := eat st
      match parseVarInit fuel st with
      | (none, true, st) => (none, st)
      | (init, false, st) =>
        let acc := acc ++ [(name, init)]
        if curTok st.toks ≠ Token.tok_char ',' then parseVarBody fuel acc st
        else
          let st := eat st
          match curTok st.toks with
          | Token.tok_identifier _ => parseVarList fuel acc st
          | _ => perror st "expected identifier list after comma"
      | (some _, true, st) => (none, st)
    | _ => (none, st)

/-- The optional initializer of one binding (src/parser.cc:190-195). -/
def parseVarInit : Nat → PState → Option Expr × Bool × PState
  | 0, st => (none, true, st)
  | fuel + 1, st =>
    if curTok st.toks = Token.tok_char '=' then
      match parseExpression fuel (eat st) with
      | (none, st) => (none, true, st)
      | (some init, st) => (some init, false, st)
    else (none, false, st)

/-- The tail of `ParseVarExpr` (src/parser.cc:207-214): the `'in'`
keyword and the body. -/
def parseVarBody : Nat → List (String × Option Expr) → PState → Option Expr × PState
  | 0, _, st => (none, st)
  | fuel + 1, acc, st =>
    if curTok st.toks ≠ Token.tok_in then perror st "expected 'in' keyword after 'var'"
    else
      match parseExpression fuel (eat st) with
      | (none, st) => (none, st)
      | (some body, st) => (some (Expr.varIn acc body), st)

/-- `ParseBinOpRHS` (src/parser.cc:258-293).  The C++ while-loop is the
tail-recursive call at the same `prec`; the conditional recursion at
`TokPrec + 1` is the right-hand-side extension.  When `tokPrec ≥ prec`
with `prec ≥ 0` the current token is necessarily an ASCII character
(`GetTokPrecedence` returned a positive table entry), so the `none` arm
below is unreachable from the program's entry points. -/
def parseBinOpRHS : Nat → Int → Expr → PState → Option Expr × PState
  | 0, _, _, st => (none, st)
  | fuel + 1, prec, lhs, st =>
    let g := getTokPrecedence st.table (curTok st.toks)
    let st := { st with table := g.2 }
    if g.1 < prec then (some lhs, st)
    else
      match isasciiTok (curTok st.toks) with
      | none => (some lhs, st)
      | some binop =>
        match parseUnary fuel (eat st) with
        | (none, st) => (none, st)
        | (some rhs, st) =>
          let g2 := getTokPrecedence st.table (curTok st.toks)
          let st := { st with table := g2.2 }
          if g.1 < g2.1 then
            match parseBinOpRHS fuel (g.1 + 1) rhs st with
            | (none, st) => (none, st)
            | (some rhs', st) =>
              parseBinOpRHS fuel prec (Expr.bin binop lhs rhs') st
          else
            parseBinOpRHS fuel prec (Expr.bin binop lhs rhs) st

end

/-- The argument-name loop of `ParsePrototype` (src/parser.cc:352-353):
`while (getNextToken() == tok_identifier) ArgNames.push_back(...)`; the
leading `'('` has already been eaten by the first `getNextToken()`. -/
def takeArgNames : List Token → List String × List Token
  | [] => ([], [])
  | t :: rest =>
    match t with
    | Token.tok_identifier s =>
      let r := takeArgNames rest
      (s :: r.1, r.2)
    | _ => ([], t :: rest)

/-- `ErrorPrototype` wrapper. -/
def perrorProto (st : PState) (msg : String) : Option PrototypeAST × PState :=
  (none, { st with errors := st.errors ++ [msg] })

/-- The common tail of `ParsePrototype` (src/parser.cc:347-363): the
parenthesised argument names, the arity check for operator prototypes,
and the construction of the `PrototypeAST`. -/
def parseProtoRest (st : PState) (fnName : String) (kind : Nat) (binPrec : Nat) :
    Option PrototypeAST × PState :=
  if curTok st.toks ≠ Token.tok_char '(' then perrorProto st "Expected '(' in prototype"
  else
    let r := takeArgNames st.toks.tail
    let argNames := r.1
    let st := { st with toks := r.2 }
    if curTok st.toks ≠ Token.tok_char ')' then perrorProto st "Expected ')' in prototype"
    else
      let st := eat st
      if kind ≠ 0 && argNames.length ≠ kind then
        perrorProto st "Invalid number of args for operator"
      else
        (some ⟨fnName, argNames, kind ≠ 0, binPrec⟩, st)

/-- `ParsePrototype` (src/parser.cc:306-364). -/
def parsePrototype (st : PState) : Option PrototypeAST × PState :=
  match curTok st.toks with
  | Token.tok_identifier fnName => parseProtoRest (eat st) fnName 0 30
  | Token.tok_unary =>
    let st := eat st
    match isasciiTok (curTok st.toks) with
    | none => perrorProto st "Expected unary operator"
    | some c => parseProtoRest (eat st) ("unary".push c) 1 30
  | Token.tok_binary =>
    let st := eat st
    match isasciiTok (curTok st.toks) with
    | none => perrorProto st "Expected binary operator"
    | some c =>
      let st := eat st
      match curTok st.toks with
      | Token.tok_number v =>
        if v < 1 || v > 100 then perrorProto st "Invalid precedence: must be 1..100"
        else parseProtoRest (eat st) ("binary".push c) 2 v.floor.toNat
      | _ => parseProtoRest st ("binary".push c) 2 30
  | _ => perrorProto st "Expected function name in prototype"

/-- `ParseDefinition` (src/parser.cc:367-375). -/
def parseDefinition (fuel : Nat) (st : PState) : Option FunctionAST × PState :=
  match parsePrototype (eat st) with
  | (none, st) => (none, st)
  | (some proto, st) =>
    match parseExpression fuel st with
    | (none, st) => (none, st)
    | (some e, st) => (some ⟨proto, e⟩, st)

/-- `ParseExtern` (src/parser.cc:378-382). -/
def parseExternDecl (st : PState) : Option PrototypeAST × PState :=
  parsePrototype (eat st)

/-- `ParseTopLevelExpr` (src/parser.cc:385-393). -/
def parseTopLevelExpr (fuel : Nat) (st : PState) : Option FunctionAST × PState :=
  match parseExpression fuel st with
  | (none, st) => (none, st)
  | (some e, st) => (some ⟨⟨"", [], false, 0⟩, e⟩, st)

/-! ## Code generator (src/codegen.cc)

The host LLVM module is a list of function records (name, parameter
names, arity, and whether the function is still a body-less declaration —
`llvm::Function::empty()`).  The IR builder is a fresh-id supply plus a
log of emitted instructions and a current insertion block; basic blocks
are ids from the same supply.  `llvm::Value*` results are `Value`; the
NULL sentinel is the `CgOut.null` constructor, and `CgOut.crash` marks
the one place where the C++ dereferences a null pointer (undefined
behaviour aborts the run, so a crash propagates without further state
changes). -/

/-- An `llvm::Value*`: a double constant, an incoming function argument,
or the result of an emitted instruction (also used for alloca slots and
basic-block handles, all drawn from one id supply). -/
inductive Value where
  | constFP (v : ℚ)
  | arg (fname : String) (idx : Nat)
  | instr (id : Nat)
deriving DecidableEq

/-- The instructions the lowering emits, in builder order. -/
inductive Instr where
  | alloca (id : Nat) (name : String)
  | load (id : Nat) (slot : Nat) (name : String)
  | store (v : Value) (slot : Nat)
  | fadd (id : Nat) (l r : Value)
  | fsub (id : Nat) (l r : Value)
  | fmul (id : Nat) (l r : Value)
  | fcmpult (id : Nat) (l r : Value)
  | fcmpone (id : Nat) (l r : Value)
  | uitofp (id : Nat) (v : Value)
  | callInstr (id : Nat) (callee : String) (args : List Value)
  | phi (id : Nat) (incoming : List (Value × Nat))
  | br (target : Nat)
  | condbr (cond : Value) (thenBB elseBB : Nat)
  | ret (v : Value)
deriving DecidableEq

/-- One `llvm::Function` in the module: its name, its (renameable)
parameter names, its arity, and `empty()` — whether it has no basic
blocks yet (a pure declaration). -/
structure FuncRec where
  name : String
  args : List String
  arity : Nat
  isEmpty : Bool
deriving DecidableEq

/-- `TheModule->getFunction(name)`. -/
def moduleGetFunction : List FuncRec → String → Option FuncRec
  | [], _ => none
  | f :: rest, n => if f.name = n then some f else moduleGetFunction rest n

/-- `F->eraseFromParent()`: drop the function named `n`. -/
def moduleErase : List FuncRec → String → List FuncRec
  | [], _ => []
  | f :: rest, n =>
    if f.name = n then moduleErase rest n else f :: moduleErase rest n

/-- Overwrite the parameter names of the module's function `n` (the
`AI->setName` loop of `PrototypeAST::Codegen`). -/
def moduleSetArgs (m : List FuncRec) (n : String) (args : List String) : List FuncRec :=
  m.map (fun f => if f.name = n then { f with args := args } else f)

/-- Mark the module's function `n` as no longer empty (its first basic
block has been created). -/
def moduleSetNonEmpty (m : List FuncRec) (n : String) : List FuncRec :=
  m.map (fun f => if f.name = n then { f with isEmpty := false } else f)

/-- `NamedValues` lookup.  `std::map<std::string, AllocaInst*>` can also
hold an explicit NULL entry (`operator[]` on an absent key inserts one),
but no code path distinguishes a NULL entry from an absent key — every
reader treats both as "no binding" and the `for` restore erases in both
cases — so NULL entries are identified with absence and the table maps
names to alloca ids only. -/
def nvLookup : List (String × Nat) → String → Option Nat
  | [], _ => none
  | (k, v) :: rest, n => if k = n then some v else nvLookup rest n

/-- `NamedValues[n] = slot`: overwrite the first entry or append. -/
def nvSet : List (String × Nat) → String → Nat → List (String × Nat)
  | [], n, slot => [(n, slot)]
  | (k, v) :: rest, n, slot =>
    if k = n then (n, slot) :: rest else (k, v) :: nvSet rest n slot

/-- `NamedValues.erase(n)`: drop the entry for `n`. -/
def nvErase : List (String × Nat) → String → List (String × Nat)
  | [], _ => []
  | (k, v) :: rest, n =>
    if k = n then nvErase rest n else (k, v) :: nvErase rest n

/-- The code generator's global state: the symbol table, the host module,
the stderr lines, the fresh-id supply, the emitted-instruction log, and
the builder's insertion block with its parent function. -/
structure CGState where
  namedValues : List (String × Nat)
  module : List FuncRec
  errors : List String
  fresh : Nat
  instrs : List Instr
  curBlock : Nat
  curFn : String
deriving DecidableEq

/-- Emit one instruction built from a fresh id. -/
def emit (st : CGState) (mk : Nat → Instr) : CGState × Nat :=
  ({ st with fresh := st.fresh + 1, instrs := st.instrs ++ [mk st.fresh] }, st.fresh)

/-- Emit an instruction that yields no value (`store`, `br`, ...). -/
def emitV (st : CGState) (i : Instr) : CGState :=
  { st with instrs := st.instrs ++ [i] }

/-- `BasicBlock::Create`: a fresh block handle. -/
def newBlock (st : CGState) : CGState × Nat :=
  ({ st with fresh := st.fresh + 1 }, st.fresh)

/-- `CreateEntryBlockAlloca(TheFunction, VarName)` (src/codegen.cc:44-50):
a double slot allocated at the top of the entry block. -/
def createEntryBlockAlloca (st : CGState) (varName : String) : CGState × Nat :=
  emit st (fun id => Instr.alloca id varName)

/-- The result of lowering: a value, the NULL error sentinel, or a crash
from dereferencing NULL (undefined behaviour). -/
inductive CgOut (α : Type) where
  | ok (a : α)
  | null
  | crash
deriving DecidableEq

/-- Whether a lowering result is a proper value. -/
def CgOut.isOk {α : Type} : CgOut α → Bool
  | CgOut.ok _ => true
  | _ => false

/-- `ErrorValue(Str)` (src/codegen.cc:17-20): print to stderr and yield
the NULL sentinel. -/
def errorValue {α : Type} (st : CGState) (msg : String) : CGState × CgOut α :=
  ({ st with errors := st.errors ++ [msg] }, CgOut.null)

/-- Modelled from the spec (see `varCodegen`): install each name in
declaration order, recording the shadowed binding (or its absence) it
replaces; returns the save list in installation order together with the
updated table. -/
def varInstall (nv : List (String × Nat)) :
    List (String × Nat) → List (String × Option Nat) × List (String × Nat)
  | [] => ([], nv)
  | (name, slot) :: rest =>
    let old := nvLookup nv name
    let r := varInstall (nvSet nv name slot) rest
    ((name, old) :: r.1, r.2)

/-- Modelled from the spec (see `varCodegen`): restore all shadowed
values, unwinding the saves in reverse installation order so that nested
saves of the same name resolve to the outermost binding. -/
def varRestore (nv : List (String × Nat)) :
    List (String × Option Nat) → List (String × Nat)
  | [] => nv
  | (name, old) :: rest =>
    let nv := varRestore nv rest
    match old with
    | some slot => nvSet nv name slot
    | none => nvErase nv name

mutual

/-- `ExprAST::Codegen` for every variant implemented in src/codegen.cc.
The `var` case dispatches to `varCodegen`, which is modelled from the
spec because src/ carries no definition of `VarExprAST::Codegen`. -/
def codegenExpr (st : CGState) : Expr → CGState × CgOut Value
  | Expr.num v =>
    -- ConstantFP::get(getGlobalContext(), APFloat(Val))
    (st, CgOut.ok (Value.constFP v))
  | Expr.var name =>
    -- Value* V = NamedValues[Name];
    -- if (V == NULL) ErrorValue("Unknown variable name");
    -- return Builder.CreateLoad(V, Name.c_str());
    -- Note the missing return: on an unknown name the error is printed,
    -- then CreateLoad dereferences the NULL pointer — a crash, not the
    -- NULL sentinel.
    match nvLookup st.namedValues name with
    | some slot =>
      let r := emit st (fun id => Instr.load id slot name)
      (r.1, CgOut.ok (Value.instr r.2))
    | none =>
      ({ st with errors := st.errors ++ ["Unknown variable name"] }, CgOut.crash)
  | Expr.bin op lhs rhs =>
    if op = '=' then
      -- Assignment: the LHS must syntactically be a variable.
      match lhs with
      | Expr.var lhsName =>
        match codegenExpr st rhs with
        | (st, CgOut.ok v) =>
          match nvLookup st.namedValues lhsName with
          | none => errorValue st "Unknown variable name"
          | some slot =>
            let st := emitV st (Instr.store v slot)
            (st, CgOut.ok v)
        | (st, CgOut.null) => (st, CgOut.null)
        | (st, CgOut.crash) => (st, CgOut.crash)
      | _ => errorValue st "destination of '=' must be a variable"
    else
      -- L and R are both lowered before the null check.
      match codegenExpr st lhs with
      | (st, CgOut.crash) => (st, CgOut.crash)
      | (st, lres) =>
        match codegenExpr st rhs with
        | (st, CgOut.crash) => (st, CgOut.crash)
        | (st, rres) =>
          match lres, rres with
          | CgOut.ok l, CgOut.ok r =>
            if op = '+' then
              let e := emit st (fun id => Instr.fadd id l r)
              (e.1, CgOut.ok (Value.instr e.2))
            else if op = '-' then
              let e := emit st (fun id => Instr.fsub id l r)
              (e.1, CgOut.ok (Value.instr e.2))
            else if op = '*' then
              let e := emit st (fun id => Instr.fmul id l r)
              (e.1, CgOut.ok (Value.instr e.2))
            else if op = '<' then
              let e := emit st (fun id => Instr.fcmpult id l r)
              let e2 := emit e.1 (fun id => Instr.uitofp id (Value.instr e.2))
              (e2.1, CgOut.ok (Value.instr e2.2))
            else
              -- A call to the user-defined operator "binary"+Op.
              match moduleGetFunction st.module ("binary".push op) with
              | none => errorValue st "invalid binary operator"
              | some _ =>
                let e := emit st (fun id => Instr.callInstr id ("binary".push op) [l, r])
                (e.1, CgOut.ok (Value.instr e.2))
          | _, _ => (st, CgOut.null)
  | Expr.un opc operand =>
    match codegenExpr st operand with
    | (st, CgOut.ok v) =>
      match moduleGetFunction st.module ("unary".push opc) with
      | none => errorValue st "Unknown unary operator"
      | some _ =>
        let e := emit st (fun id => Instr.callInstr id ("unary".push opc) [v])
        (e.1, CgOut.ok (Value.instr e.2))
    | (st, CgOut.null) => (st, CgOut.null)
    | (st, CgOut.crash) => (st, CgOut.crash)
  | Expr.call callee args =>
    match moduleGetFunction st.module callee with
    | none => errorValue st "Unknown function referenced"
    | some calleeF =>
      if calleeF.arity ≠ args.length then
        errorValue st "Incorrect number of arguments passed"
      else
        match codegenArgs st args with
        | (st, CgOut.ok vs) =>
          let e := emit st (fun id => Instr.callInstr id callee vs)
          (e.1, CgOut.ok (Value.instr e.2))
        | (st, CgOut.null) => (st, CgOut.null)
        | (st, CgOut.crash) => (st, CgOut.crash)
  | Expr.ite_ c t e =>
    match codegenExpr st c with
    | (st, CgOut.null) => (st, CgOut.null)
    | (st, CgOut.crash) => (st, CgOut.crash)
    | (st, CgOut.ok condV) =>
      let cmp := emit st (fun id => Instr.fcmpone id condV (Value.constFP 0))
      let b1 := newBlock cmp.1
      let thenBB := b1.2
      let b2 := newBlock b1.1
      let elseBB := b2.2
      let b3 := newBlock b2.1
      let mergeBB := b3.2
      let st := emitV b3.1 (Instr.condbr (Value.instr cmp.2) thenBB elseBB)
      let st := { st with curBlock := thenBB }
      match codegenExpr st t with
      | (st, CgOut.null) => (st, CgOut.null)
      | (st, CgOut.crash) => (st, CgOut.crash)
      | (st, CgOut.ok thenV) =>
        let st := emitV st (Instr.br mergeBB)
        let thenEnd := st.curBlock
        let st := { st with curBlock := elseBB }
        match codegenExpr st e with
        | (st, CgOut.null) => (st, CgOut.null)
        | (st, CgOut.crash) => (st, CgOut.crash)
        | (st, CgOut.ok elseV) =>
          let st := emitV st (Instr.br mergeBB)
          let elseEnd := st.curBlock
          let st := { st with curBlock := mergeBB }
          let p := emit st (fun id => Instr.phi id [(thenV, thenEnd), (elseV, elseEnd)])
          (p.1, CgOut.ok (Value.instr p.2))
  | Expr.for_ varName start stop step body =>
    let a := createEntryBlockAlloca st varName
    let alloca := a.2
    match codegenExpr a.1 start with
    | (st, CgOut.null) => (st, CgOut.null)
    | (st, CgOut.crash) => (st, CgOut.crash)
    | (st, CgOut.ok startVal) =>
      let st := emitV st (Instr.store startVal alloca)
      let b := newBlock st
      let loopBB := b.2
      let st := emitV b.1 (Instr.br loopBB)
      let st := { st with curBlock := loopBB }
      -- AllocaInst* OldVal = NamedValues[VarName]; NamedValues[VarName] = Alloca;
      let oldVal := nvLookup st.namedValues varName
      let st := { st with namedValues := nvSet st.namedValues varName alloca }
      -- An error in the body, the step or the end returns NULL at once:
      -- the shadowed binding is NOT restored on those paths.
      match codegenExpr st body with
      | (st, CgOut.null) => (st, CgOut.null)
      | (st, CgOut.crash) => (st, CgOut.crash)
      | (st, CgOut.ok _) =>
        match codegenForStep st step with
        | (st, CgOut.null) => (st, CgOut.null)
        | (st, CgOut.crash) => (st, CgOut.crash)
        | (st, CgOut.ok stepVal) =>
          match codegenExpr st stop with
          | (st, CgOut.null) => (st, CgOut.null)
          | (st, CgOut.crash) => (st, CgOut.crash)
          | (st, CgOut.ok endCond) =>
            let l := emit st (fun id => Instr.load id alloca varName)
            let n := emit l.1 (fun id => Instr.fadd id (Value.instr l.2) stepVal)
            let st := emitV n.1 (Instr.store (Value.instr n.2) alloca)
            let cmp := emit st (fun id => Instr.fcmpone id endCond (Value.constFP 0))
            let ab := newBlock cmp.1
            let afterBB := ab.2
            let st := emitV ab.1 (Instr.condbr (Value.instr cmp.2) loopBB afterBB)
            let st := { st with curBlock := afterBB }
            -- Restore the unshadowed variable.
            let st :=
              match oldVal with
              | some old => { st with namedValues := nvSet st.namedValues varName old }
              | none => { st with namedValues := nvErase st.namedValues varName }
            (st, CgOut.ok (Value.constFP 0))
  | Expr.varIn bindings body => varCodegen st bindings body
termination_by e => sizeOf e
decreasing_by all_goals simp_wf <;> try omega

/-- The `for` step: `Step->Codegen()` when present, else the constant
`1.0` (src/codegen.cc:197-204). -/
def codegenForStep (st : CGState) : Option Expr → CGState × CgOut Value
  | some s => codegenExpr st s
  | none => (st, CgOut.ok (Value.constFP 1))
termination_by o => sizeOf o
decreasing_by all_goals simp_wf <;> try omega

/-- The argument loop of `CallExprAST::Codegen` (src/codegen.cc:260-264):
lower each argument left to right, stopping at the first failure. -/
def codegenArgs (st : CGState) : List Expr → CGState × CgOut (List Value)
  | [] => (st, CgOut.ok [])
  | a :: rest =>
    match codegenExpr st a with
    | (st, CgOut.ok v) =>
      match codegenArgs st rest with
      | (st, CgOut.ok vs) => (st, CgOut.ok (v :: vs))
      | (st, CgOut.null) => (st, CgOut.null)
      | (st, CgOut.crash) => (st, CgOut.crash)
    | (st, CgOut.null) => (st, CgOut.null)
    | (st, CgOut.crash) => (st, CgOut.crash)
termination_by l => sizeOf l
decreasing_by all_goals simp_wf <;> try omega

/-- Modelled from the spec: `VarExprAST::Codegen` is declared in
src/ast.h:124 but src/ contains no definition of it; §4.C of the spec
fixes its behaviour.  Phase one (`varLowerInits`): "for each binding in
declaration order, lower its initializer in the *outer* scope, allocate
an entry-block slot, store the value".  Then, "after all initializers are
evaluated", install each name into the symbol table saving any shadowed
values (`varInstall`); lower the body; restore all shadowed values
(`varRestore`); yield the body's value. -/
def varCodegen (st : CGState) (bindings : List (String × Option Expr)) (body : Expr) :
    CGState × CgOut Value :=
  match varLowerInits st bindings with
  | (st, CgOut.null) => (st, CgOut.null)
  | (st, CgOut.crash) => (st, CgOut.crash)
  | (st, CgOut.ok slots) =>
    let inst := varInstall st.namedValues slots
    let st := { st with namedValues := inst.2 }
    match codegenExpr st body with
    | (st, CgOut.crash) => (st, CgOut.crash)
    | (st, r) =>
      let st := { st with namedValues := varRestore st.namedValues inst.1 }
      (st, r)
termination_by sizeOf bindings + sizeOf body
decreasing_by
  all_goals simp_wf
  all_goals try omega
  all_goals
    first
      | (have hb : 0 < sizeOf body := by cases body <;> simp_arith
         omega)
      | (have hb : 0 < sizeOf bindings := by cases bindings <;> simp_arith
         omega)

/-- Modelled from the spec (first phase of `VarExprAST::Codegen`, see
`varCodegen`): lower every initializer — a missing initializer defaults
to the constant `0.0` — in the scope the `var` was entered with, allocate
an entry-block slot per binding and store the value into it.  The symbol
table is never touched here, so no bound name is visible to any
initializer. -/
def varLowerInits (st : CGState) :
    List (String × Option Expr) → CGState × CgOut (List (String × Nat))
  | [] => (st, CgOut.ok [])
  | (name, initE) :: rest =>
    match varLowerOneInit st initE with
    | (st, CgOut.null) => (st, CgOut.null)
    | (st, CgOut.crash) => (st, CgOut.crash)
    | (st, CgOut.ok v) =>
      let a := createEntryBlockAlloca st name
      let st := emitV a.1 (Instr.store v a.2)
      match varLowerInits st rest with
      | (st, CgOut.ok slots) => (st, CgOut.ok ((name, a.2) :: slots))
      | (st, CgOut.null) => (st, CgOut.null)
      | (st, CgOut.crash) => (st, CgOut.crash)
termination_by l => sizeOf l
decreasing_by all_goals simp_wf <;> try omega

/-- Modelled from the spec (see `varCodegen`): one optional initializer;
when absent the value defaults to `0.0`. -/
def varLowerOneInit (st : CGState) : Option Expr → CGState × CgOut Value
  | some e => codegenExpr st e
  | none => (st, CgOut.ok (Value.constFP 0))
termination_by o => sizeOf o
decreasing_by all_goals simp_wf <;> try omega

end

/-- `ErrorFunction(Str)` (src/codegen.cc:22-25). -/
def errorFunction (st : CGState) (msg : String) : CGState × Option String :=
  ({ st with errors := st.errors ++ [msg] }, none)

/-- `PrototypeAST::Codegen` (src/codegen.cc:269-303).  A function is
identified by its (unique) name.  `Function::Create` with a name already
present in the module leaves the new function with a mangled name; the
C++ detects this, erases the new function and switches to the existing
one, which must be a body-less declaration of the same arity.  Both the
fresh-creation path and the reuse path end by naming the parameters. -/
def prototypeCodegen (st : CGState) (p : PrototypeAST) : CGState × Option String :=
  match moduleGetFunction st.module p.name with
  | none =>
    let fr : FuncRec := ⟨p.name, p.args, p.args.length, true⟩
    ({ st with module := st.module ++ [fr] }, some p.name)
  | some f =>
    if f.isEmpty = false then errorFunction st "Redefinition of function"
    else if f.arity ≠ p.args.length then
      errorFunction st "Redefinition of function with different # args"
    else
      ({ st with module := moduleSetArgs st.module p.name p.args }, some p.name)

/-- `PrototypeAST::CreateArgumentAllocas` (src/codegen.cc:240-248): for
each parameter, an entry-block alloca, a store of the incoming argument
value, and a symbol-table binding. -/
def createArgumentAllocas (st : CGState) (fname : String) (idx : Nat) :
    List String → CGState
  | [] => st
  | a :: rest =>
    let al := createEntryBlockAlloca st a
    let st := emitV al.1 (Instr.store (Value.arg fname idx) al.2)
    let st := { st with namedValues := nvSet st.namedValues a al.2 }
    createArgumentAllocas st fname (idx + 1) rest

/-- `FunctionAST::Codegen` (src/codegen.cc:305-337).  The operator table
is global shared state, taken and returned alongside the codegen state.
`verifyFunction` and the per-function optimization pass run on the host
IR and do not change anything this model observes.  A crash in the body
aborts the process: neither the erase nor the precedence rollback runs. -/
def functionCodegen (table : Table) (st : CGState) (fn : FunctionAST) :
    Table × CGState × CgOut String :=
  let st := { st with namedValues := [] }
  match prototypeCodegen st fn.proto with
  | (st, none) => (table, st, CgOut.null)
  | (st, some fname) =>
    -- If a binop, install it before the body is lowered.
    let table :=
      if fn.proto.isBinaryOp then
        tableSet table fn.proto.getOperatorName (fn.proto.precedence : Int)
      else table
    let b := newBlock st
    let st := { b.1 with curBlock := b.2, curFn := fname,
                         module := moduleSetNonEmpty b.1.module fname }
    let st := createArgumentAllocas st fname 0 fn.proto.args
    match codegenExpr st fn.body with
    | (st, CgOut.ok retVal) =>
      let st := emitV st (Instr.ret retVal)
      (table, st, CgOut.ok fname)
    | (st, CgOut.null) =>
      -- Error reading the body: erase the function (this can delete a
      -- forward declaration) and roll back a freshly installed binop.
      let st := { st with module := moduleErase st.module fname }
      let table :=
        if fn.proto.isBinaryOp then tableErase table fn.proto.getOperatorName
        else table
      (table, st, CgOut.null)
    | (st, CgOut.crash) => (table, st, CgOut.crash)

/-! ## Derived notions used by the theorems -/

/-- A fresh code-generation state: empty symbol table, empty module, no
stderr output, id supply at zero, no insertion point selected yet. -/
def emptyCG : CGState := ⟨[], [], [], 0, [], 0, ""⟩

/-- The operator tables reachable by the program: the preloaded table,
grown by `GetTokPrecedence` reads (each can default-insert a zero entry),
by `FunctionAST::Codegen` installing a binary-operator precedence — the
parser only ever produces operator precedences `≥ 1` (validated range
`[1,100]`, default 30; see `parsePrototype_operator_precedence_pos`) —
and shrunk by the failure-path rollback. -/
inductive TableReach : Table → Prop where
  | preloaded : TableReach preloadedTable
  | lookup (t : Table) (tok : Token) : TableReach t →
      TableReach (getTokPrecedence t tok).2
  | install (t : Table) (c : Char) (p : Int) : TableReach t → 1 ≤ p →
      TableReach (tableSet t c p)
  | rollback (t : Table) (c : Char) : TableReach t →
      TableReach (tableErase t c)

/-- The number leaves of a parsed binary-expression tree, left to right. -/
def exprAtoms : Expr → List ℚ
  | Expr.num v => [v]
  | Expr.bin _ l r => exprAtoms l ++ exprAtoms r
  | _ => []

/-- The operators of a parsed binary-expression tree, in source order. -/
def exprOps : Expr → List Char
  | Expr.bin op l r => exprOps l ++ op :: exprOps r
  | _ => []

/-- Pratt's grouping rule as an executable predicate on the produced
tree: at every `(l op r)` node, every operator inside `l` binds at least
as tightly as `op` (operators of equal precedence associate to the left)
and every operator inside `r` binds strictly tighter (the node groups
exactly because no intervening operator of strictly higher precedence
escapes below it).  Together with the leaf/operator order this pins the
tree uniquely, which is the "grouped iff" of the claim. -/
def prattOKb (t : Table) : Expr → Bool
  | Expr.bin op l r =>
    prattOKb t l && prattOKb t r &&
    (exprOps l).all (fun o => decide (precOf t op ≤ precOf t o)) &&
    (exprOps r).all (fun o => decide (precOf t op < precOf t o))
  | _ => true

/-- The token stream `op₁ a₂ op₂ a₃ …` following a leading primary. -/
def tailToks : List (Char × ℚ) → List Token
  | [] => []
  | (op, b) :: rest => Token.tok_char op :: Token.tok_number b :: tailToks rest

/-- The token stream of a binary expression `a₁ op₁ a₂ … opₙ aₙ₊₁` whose
primaries are number literals. -/
def exprToks (a : ℚ) (ps : List (Char × ℚ)) : List Token :=
  Token.tok_number a :: tailToks ps

/-- Specification predicate: a successful `ExprAST::Codegen` leaves the
symbol table exactly as it found it (scopes are balanced). -/
def NvPresExpr (st : CGState) (e : Expr) : Prop :=
  ∀ st' v, codegenExpr st e = (st', CgOut.ok v) →
    st'.namedValues = st.namedValues

/-- Specification predicate: `varCodegen` preserves the symbol table on
every non-crash outcome. -/
def NvPresVarCodegen (st : CGState) (bs : List (String × Option Expr)) (body : Expr) : Prop :=
  ∀ st' v, varCodegen st bs body = (st', CgOut.ok v) →
    st'.namedValues = st.namedValues

/-- Specification predicate: a successful `varLowerInits` leaves the
symbol table untouched — no bound name becomes visible while the
initializers are lowered. -/
def NvPresInits (st : CGState) (bs : List (String × Option Expr)) : Prop :=
  ∀ st' slots, varLowerInits st bs = (st', CgOut.ok slots) →
    st'.namedValues = st.namedValues

/-- Specification predicate for the two optional-expression helpers. -/
def NvPresOpt (st : CGState) (o : Option Expr) : Prop :=
  (∀ st' v, codegenForStep st o = (st', CgOut.ok v) →
    st'.namedValues = st.namedValues) ∧
  (∀ st' v, varLowerOneInit st o = (st', CgOut.ok v) →
    st'.namedValues = st.namedValues)

/-- Specification predicate: a successful argument loop preserves the
symbol table. -/
def NvPresArgs (st : CGState) (l : List Expr) : Prop :=
  ∀ st' vs, codegenArgs st l = (st', CgOut.ok vs) →
    st'.namedValues = st.namedValues

/-! ## Helper lemmas: builder steps do not touch the symbol table -/

@[simp] theorem emit_namedValues (st : CGState) (f : Nat → Instr) :
    (emit st f).1.namedValues = st.namedValues := rfl

@[simp] theorem emit_module (st : CGState) (f : Nat → Instr) :
    (emit st f).1.module = st.module := rfl

@[simp] theorem emitV_namedValues (st : CGState) (i : Instr) :
    (emitV st i).namedValues = st.namedValues := rfl

@[simp] theorem emitV_module (st : CGState) (i : Instr) :
    (emitV st i).module = st.module := rfl

@[simp] theorem newBlock_namedValues (st : CGState) :
    (newBlock st).1.namedValues = st.namedValues := rfl

@[simp] theorem newBlock_module (st : CGState) :
    (newBlock st).1.module = st.module := rfl

@[simp] theorem createEntryBlockAlloca_namedValues (st : CGState) (n : String) :
    (createEntryBlockAlloca st n).1.namedValues = st.namedValues := rfl

@[simp] theorem createEntryBlockAlloca_module (st : CGState) (n : String) :
    (createEntryBlockAlloca st n).1.module = st.module := rfl

@[simp] theorem errorValue_namedValues {α : Type} (st : CGState) (m : String) :
    (errorValue (α := α) st m).1.namedValues = st.namedValues := rfl

/-! ## Helper lemmas: the symbol-table association list -/

theorem nvSet_twice (nv : List (String × Nat)) (n : String) (a b : Nat) :
    nvSet (nvSet nv n a) n b = nvSet nv n b := by
  induction nv with
  | nil => simp [nvSet]
  | cons p rest ih =>
    by_cases h : p.1 = n
    · simp [nvSet, h]
    · simp [nvSet, h, ih]

theorem nvSet_restore (nv : List (String × Nat)) (n : String) (a : Nat)
    (h : nvLookup nv n = some a) (b : Nat) :
    nvSet (nvSet nv n b) n a = nv := by
  induction nv with
  | nil => simp [nvLookup] at h
  | cons p rest ih =>
    cases p with
    | mk k v =>
      by_cases hp : k = n
      · subst hp
        simp only [nvLookup, if_pos, Option.some.injEq] at h
        subst h
        simp [nvSet]
      · simp only [nvLookup] at h
        rw [if_neg hp] at h
        simp [nvSet, hp, ih h]

theorem nvErase_nvSet_of_absent (nv : List (String × Nat)) (n : String) (b : Nat)
    (h : nvLookup nv n = none) : nvErase (nvSet nv n b) n = nv := by
  induction nv with
  | nil => simp [nvSet, nvErase]
  | cons p rest ih =>
    cases p with
    | mk k v =>
      simp only [nvLookup] at h
      by_cases hp : k = n
      · rw [if_pos hp] at h; cases h
      · rw [if_neg hp] at h
        simp [nvSet, hp, nvErase, ih h]

theorem varRestore_varInstall (slots : List (String × Nat))
    (nv : List (String × Nat)) :
    varRestore (varInstall nv slots).2 (varInstall nv slots).1 = nv := by
  induction slots generalizing nv with
  | nil => simp [varInstall, varRestore]
  | cons p rest ih =>
    cases p with
    | mk n s =>
      simp only [varInstall, varRestore]
      rw [ih (nvSet nv n s)]
      cases h : nvLookup nv n with
      | none => simpa using nvErase_nvSet_of_absent nv n s h
      | some a => simpa using nvSet_restore nv n a h s


/-! ## The scope-balance lemma

A successful lowering of any expression leaves `NamedValues` exactly as
it found it: `for` restores its loop variable on its successful exit and
`var` restores every shadowed binding, while every other construct never
touches the table.  Proved by the mutual functional induction of the six
lowering functions. -/

set_option maxHeartbeats 32000000 in
theorem codegen_preserves_nv : ∀ st e, NvPresExpr st e := by
  apply codegenExpr.induct NvPresExpr NvPresVarCodegen NvPresInits NvPresOpt NvPresOpt NvPresArgs
  all_goals try (dsimp only [])
  all_goals intros
  all_goals simp only [NvPresExpr, NvPresVarCodegen, NvPresInits, NvPresOpt, NvPresArgs] at *
  all_goals try constructor
  all_goals first
    | (intro st2 rv h
       try (simp only [codegenExpr, *] at h)
       try (simp [*] at h)
       try (obtain ⟨h1, h2⟩ := h)
       try (subst h1)
       try (simp [*])
       try simp_all
       done)
    | (intro st2 rv h
       try (simp only [codegenExpr, *] at h)
       try (rw [codegenExpr.eq_def] at h)
       try (simp [*] at h)
       try (obtain ⟨h1, h2⟩ := h)
       try (subst h1)
       try (simp [*])
       try simp_all
       done)
    | (intro st2 rv h
       try (simp only [varCodegen, *] at h)
       try (simp [*] at h)
       try (obtain ⟨h1, h2⟩ := h)
       try (subst h1)
       try (simp [*])
       try simp_all
       done)
    | (intro st2 rv h
       try (simp only [varLowerInits, varLowerOneInit, codegenForStep, codegenArgs, *] at h)
       try (simp [*] at h)
       try (obtain ⟨h1, h2⟩ := h)
       try (subst h1)
       try (simp [*])
       try simp_all
       done)
    | skip
  · rename_i st vn start stop step body st1 sv hstart st6 bv hbody st7 pv hstep st8 ev hstop ih1 ih2 ih3 ih4
    intro st2 rv h
    have e1 := ih1 st1 sv hstart
    have e2 := ih2 st6 bv hbody
    have e3 := ih3.1 st7 pv hstep
    have e4 := ih4 st8 ev hstop
    simp only [createEntryBlockAlloca_namedValues] at e1
    simp only [emitV_namedValues, newBlock_namedValues, e1] at e2
    rw [codegenExpr.eq_def] at h
    simp [hstart] at h
    simp only [emitV_namedValues, newBlock_namedValues, createEntryBlockAlloca_namedValues,
      emitV_module, newBlock_module, createEntryBlockAlloca_module, e1] at hbody h
    rw [hbody] at h
    simp [hstep, hstop] at h
    cases hold : nvLookup st.namedValues vn with
    | some old =>
      simp [hold] at h
      obtain ⟨h1, h2⟩ := h
      subst h1
      simp only [emitV_namedValues, newBlock_namedValues, emit_namedValues, e4, e3, e2]
      exact nvSet_restore st.namedValues vn old hold _
    | none =>
      simp [hold] at h
      obtain ⟨h1, h2⟩ := h
      subst h1
      simp only [emitV_namedValues, newBlock_namedValues, emit_namedValues, e4, e3, e2]
      exact nvErase_nvSet_of_absent st.namedValues vn _ hold
  · rename_i st bs body st1 slots hinits st3 rres hnc hbody ih1 ih2
    intro st2 rv h
    have e1 := ih1 st1 slots hinits
    rw [varCodegen.eq_def] at h
    simp [hinits] at h
    cases rres with
    | crash => exact (hnc rfl).elim
    | null =>
      rw [hbody] at h
      simp at h
    | ok w =>
      have e2 := ih2 st3 w hbody
      rw [hbody] at h
      simp at h
      obtain ⟨h1, h2⟩ := h
      subst h1
      simp only [e2]
      rw [varRestore_varInstall]
      exact e1

/-- A successful expression lowering preserves the symbol table. -/
theorem codegenExpr_ok_namedValues (st : CGState) (e : Expr) (st' : CGState) (v : Value)
    (h : codegenExpr st e = (st', CgOut.ok v)) : st'.namedValues = st.namedValues :=
  codegen_preserves_nv st e st' v h

/-- A successful `varLowerOneInit` preserves the symbol table. -/
theorem varLowerOneInit_namedValues (st : CGState) (o : Option Expr) (st' : CGState)
    (v : Value) (h : varLowerOneInit st o = (st', CgOut.ok v)) :
    st'.namedValues = st.namedValues := by
  cases o with
  | none =>
    simp only [varLowerOneInit] at h
    cases h
    rfl
  | some e =>
    simp only [varLowerOneInit] at h
    exact codegenExpr_ok_namedValues st e st' v h

/-- A successful initializer phase of `var` lowering never touches the
symbol table: every initializer is evaluated in the outer scope. -/
theorem varLowerInits_namedValues (bs : List (String × Option Expr)) :
    ∀ st st' slots, varLowerInits st bs = (st', CgOut.ok slots) →
      st'.namedValues = st.namedValues := by
  induction bs with
  | nil =>
    intro st st' slots h
    simp only [varLowerInits] at h
    cases h
    rfl
  | cons p rest ih =>
    intro st st' slots h
    cases p with
    | mk name initE =>
      cases h1 : varLowerOneInit st initE with
      | mk st1 r1 =>
        rw [varLowerInits.eq_def] at h
        simp only [h1] at h
        cases r1 with
        | null => simp at h
        | crash => simp at h
        | ok v =>
          cases h2 : varLowerInits (emitV (createEntryBlockAlloca st1 name).1
              (Instr.store v (createEntryBlockAlloca st1 name).2)) rest with
          | mk st2 r2 =>
            simp only [h2] at h
            cases r2 with
            | null => simp at h
            | crash => simp at h
            | ok ss =>
              simp only [Prod.mk.injEq] at h
              have e1 := varLowerOneInit_namedValues st initE st1 v h1
              have e2 := ih _ st2 ss h2
              simp only [emitV_namedValues, createEntryBlockAlloca_namedValues] at e2
              rw [← h.1, e2, e1]


/-! ## Helper lemmas: module and operator-table association lists -/

theorem moduleGetFunction_erase_self (m : List FuncRec) (n : String) :
    moduleGetFunction (moduleErase m n) n = none := by
  induction m with
  | nil => rfl
  | cons f rest ih =>
    by_cases hf : f.name = n
    · simp [moduleErase, hf, ih]
    · simp [moduleErase, moduleGetFunction, hf, ih]

theorem tableLookup_tableSet_self (t : Table) (c : Char) (v : Int) :
    tableLookup (tableSet t c v) c = some v := by
  induction t with
  | nil => simp [tableSet, tableLookup]
  | cons p rest ih =>
    by_cases hp : p.1 = c
    · cases p; simp_all [tableSet, tableLookup]
    · cases p; simp_all [tableSet, tableLookup]

theorem tableLookup_tableErase_self (t : Table) (c : Char) :
    tableLookup (tableErase t c) c = none := by
  induction t with
  | nil => rfl
  | cons p rest ih =>
    cases p with
    | mk k v =>
      by_cases hk : k = c
      · simp [tableErase, hk, ih]
      · simp [tableErase, tableLookup, hk, ih]

theorem mem_tableSet (t : Table) (c : Char) (v : Int) (e : Char × Int)
    (h : e ∈ tableSet t c v) : e = (c, v) ∨ e ∈ t := by
  induction t with
  | nil => simpa [tableSet] using h
  | cons p rest ih =>
    cases p with
    | mk k w =>
      by_cases hk : k = c
      · simp [tableSet, hk] at h
        rcases h with h | h
        · exact Or.inl (by simp [h])
        · exact Or.inr (by simp [h])
      · simp [tableSet, hk] at h
        rcases h with h | h
        · exact Or.inr (by simp [h])
        · rcases ih h with h2 | h2
          · exact Or.inl h2
          · exact Or.inr (by simp [h2])

theorem mem_tableErase (t : Table) (c : Char) (e : Char × Int)
    (h : e ∈ tableErase t c) : e ∈ t := by
  induction t with
  | nil => simpa [tableErase] using h
  | cons p rest ih =>
    cases p with
    | mk k w =>
      by_cases hk : k = c
      · simp only [tableErase, hk, if_pos] at h
        exact List.mem_cons_of_mem _ (ih h)
      · rw [tableErase, if_neg hk] at h
        rcases List.mem_cons.mp h with h2 | h2
        · exact h2 ▸ List.mem_cons_self _ _
        · exact List.mem_cons_of_mem _ (ih h2)

theorem mem_getTokPrecedence (t : Table) (tok : Token) (e : Char × Int)
    (h : e ∈ (getTokPrecedence t tok).2) : e ∈ t ∨ e.2 = 0 := by
  cases hA : isasciiTok tok with
  | none =>
    simp [getTokPrecedence, hA] at h
    exact Or.inl h
  | some c =>
    cases hL : tableLookup t c with
    | some v =>
      simp [getTokPrecedence, tableGetDefault, hA, hL, apply_ite] at h
      exact Or.inl h
    | none =>
      simp [getTokPrecedence, tableGetDefault, hA, hL, apply_ite] at h
      rcases h with h2 | h2
      · exact Or.inl h2
      · exact Or.inr (by simp [h2])

/-! ## Claim C1 -/

/-- C1 (code bug): the lexer's keyword test (src/lexer.cc:19-27) compares
the accumulated identifier against only `def extern if then else for in`.
The keywords `binary`, `unary` and `var` — declared as tokens in
src/lexer.h and dispatched on by `ParsePrototype` and `ParsePrimary` —
are missing, so `gettok` returns `tok_identifier` for them instead of
the keyword tokens the claim states.  The seven handled keywords behave
as claimed (witnessed here by `def`). -/
theorem c1_lexer_keyword_gap :
    (gettok 1 (some ' ') "var ".toList).1 = Token.tok_identifier "var" ∧
    (gettok 1 (some ' ') "binary ".toList).1 = Token.tok_identifier "binary" ∧
    (gettok 1 (some ' ') "unary ".toList).1 = Token.tok_identifier "unary" ∧
    (gettok 1 (some ' ') "def ".toList).1 = Token.tok_def ∧
    Token.tok_identifier "var" ≠ Token.tok_var :=
  ⟨rfl, rfl, rfl, rfl, by decide⟩

/-! ## Claim C4 -/

/-- C4 (code bug): lowering `Variable "x"` with no live binding prints
"Unknown variable name" but — the `return` being missing in
src/codegen.cc:58 — falls through to `Builder.CreateLoad(NULL, ...)`,
dereferencing the null pointer (modelled as `CgOut.crash`) instead of
yielding the empty sentinel the claim (and every other codegen error
path) prescribes. -/
theorem c4_unknown_variable_crashes :
    codegenExpr emptyCG (Expr.var "x")
      = ({ emptyCG with errors := ["Unknown variable name"] }, CgOut.crash) ∧
    (CgOut.crash : CgOut Value) ≠ CgOut.null := by
  refine ⟨?_, by decide⟩
  simp [codegenExpr, nvLookup, emptyCG]

/-! ## Claim C6 -/

/-- The three possible outcomes of `PrototypeAST::Codegen` against an
existing module entry (shared support for several claims). -/
theorem prototypeCodegen_existing (st : CGState) (p : PrototypeAST) (f : FuncRec)
    (hf : moduleGetFunction st.module p.name = some f) :
    (f.isEmpty = true → f.arity = p.args.length →
      prototypeCodegen st p
        = ({ st with module := moduleSetArgs st.module p.name p.args }, some p.name)) ∧
    (f.isEmpty = false →
      prototypeCodegen st p
        = ({ st with errors := st.errors ++ ["Redefinition of function"] }, none)) ∧
    (f.isEmpty = true → f.arity ≠ p.args.length →
      prototypeCodegen st p
        = ({ st with errors :=
              st.errors ++ ["Redefinition of function with different # args"] }, none)) := by
  refine ⟨?_, ?_, ?_⟩
  · intro h1 h2
    simp [prototypeCodegen, hf, h1, h2, errorFunction]
  · intro h1
    simp [prototypeCodegen, hf, h1, errorFunction]
  · intro h1 h2
    simp [prototypeCodegen, hf, h1, h2, errorFunction]

/-- C6: prototype lowering accepts a declaration followed by a prototype
of the same name and arity (the existing declaration is reused and its
parameters renamed, with no error); it rejects a prototype for a name
that already has a body with "Redefinition of function"; and it rejects
a prototype for an existing body-less name of different arity with
"Redefinition of function with different # args". -/
theorem c6_redefinition_rules (st : CGState) (p : PrototypeAST) (f : FuncRec)
    (hf : moduleGetFunction st.module p.name = some f) :
    (f.isEmpty = true → f.arity = p.args.length →
      prototypeCodegen st p
        = ({ st with module := moduleSetArgs st.module p.name p.args }, some p.name)) ∧
    (f.isEmpty = false →
      prototypeCodegen st p
        = ({ st with errors := st.errors ++ ["Redefinition of function"] }, none)) ∧
    (f.isEmpty = true → f.arity ≠ p.args.length →
      prototypeCodegen st p
        = ({ st with errors :=
              st.errors ++ ["Redefinition of function with different # args"] }, none)) :=
  prototypeCodegen_existing st p f hf

/-- Witness for C6 at concrete prototypes: a declaration `f(x)`
redeclared as `f(y)` is accepted renaming the parameter; a defined `g`
is rejected; a declared unary-arity `h` redeclared binary is rejected. -/
theorem c6_redefinition_rules_witness :
    (prototypeCodegen { emptyCG with module := [⟨"f", ["x"], 1, true⟩] } ⟨"f", ["y"], false, 0⟩
      = ({ emptyCG with module := [⟨"f", ["y"], 1, true⟩] }, some "f")) ∧
    (prototypeCodegen { emptyCG with module := [⟨"g", ["x"], 1, false⟩] } ⟨"g", ["y"], false, 0⟩
      = ({ emptyCG with
            module := [⟨"g", ["x"], 1, false⟩]
            errors := ["Redefinition of function"] }, none)) ∧
    (prototypeCodegen { emptyCG with module := [⟨"h", ["x"], 1, true⟩] } ⟨"h", ["y", "z"], false, 0⟩
      = ({ emptyCG with
            module := [⟨"h", ["x"], 1, true⟩]
            errors := ["Redefinition of function with different # args"] }, none)) := by
  refine ⟨?_, ?_, ?_⟩
  · exact (c6_redefinition_rules { emptyCG with module := [⟨"f", ["x"], 1, true⟩] }
      ⟨"f", ["y"], false, 0⟩ ⟨"f", ["x"], 1, true⟩ rfl).1 rfl rfl
  · exact (c6_redefinition_rules { emptyCG with module := [⟨"g", ["x"], 1, false⟩] }
      ⟨"g", ["y"], false, 0⟩ ⟨"g", ["x"], 1, false⟩ rfl).2.1 rfl
  · exact (c6_redefinition_rules { emptyCG with module := [⟨"h", ["x"], 1, true⟩] }
      ⟨"h", ["y", "z"], false, 0⟩ ⟨"h", ["x"], 1, true⟩ rfl).2.2 rfl (by decide)


/-! ## Claim C8 -/

/-- C8, counterexample: the module installs `f` with exactly one
parameter and the call `f(g())` passes exactly one argument — by the
claim's "if and only if" the call should succeed — yet lowering fails
(the NULL sentinel) because the argument references the unknown `g`. -/
theorem c8_counterexample :
    moduleGetFunction [⟨"f", ["a"], 1, true⟩] "f" = some ⟨"f", ["a"], 1, true⟩ ∧
    (codegenExpr { emptyCG with module := [⟨"f", ["a"], 1, true⟩] }
        (Expr.call "f" [Expr.call "g" []])).2 = CgOut.null := by
  refine ⟨rfl, ?_⟩
  simp [codegenExpr, codegenArgs, moduleGetFunction, errorValue]

/-- C8 (amended): lowering `Call(f, args)` fails with "Unknown function
referenced" when no function `f` is installed and with "Incorrect number
of arguments passed" when the installed arity differs from `|args|`;
when a prototype with matching arity is installed, the call succeeds iff
every argument itself lowers successfully (the claim's iff ignored the
argument failures). -/
theorem c8_call_arity (st : CGState) (f : String) (args : List Expr) :
    (moduleGetFunction st.module f = none →
      codegenExpr st (Expr.call f args)
        = ({ st with errors := st.errors ++ ["Unknown function referenced"] }, CgOut.null)) ∧
    (∀ fr, moduleGetFunction st.module f = some fr → fr.arity ≠ args.length →
      codegenExpr st (Expr.call f args)
        = ({ st with errors := st.errors ++ ["Incorrect number of arguments passed"] },
            CgOut.null)) ∧
    (∀ fr, moduleGetFunction st.module f = some fr → fr.arity = args.length →
      ((codegenExpr st (Expr.call f args)).2.isOk = true ↔
        (codegenArgs st args).2.isOk = true)) := by
  refine ⟨?_, ?_, ?_⟩
  · intro h
    simp [codegenExpr, h, errorValue]
  · intro fr h1 h2
    simp [codegenExpr, h1, h2, errorValue]
  · intro fr h1 h2
    cases hA : codegenArgs st args with
    | mk stA rA =>
      rw [codegenExpr.eq_def]
      simp only [h1, hA]
      rw [if_neg (by simp [h2])]
      cases rA <;> simp [CgOut.isOk]

/-- Witness for C8 at concrete calls: an absent callee, an arity
mismatch, and a matching-arity call whose success tracks its arguments. -/
theorem c8_call_arity_witness :
    (codegenExpr emptyCG (Expr.call "f" [])
      = ({ emptyCG with errors := ["Unknown function referenced"] }, CgOut.null)) ∧
    (codegenExpr { emptyCG with module := [⟨"g", ["x"], 1, true⟩] } (Expr.call "g" [])
      = ({ emptyCG with
            module := [⟨"g", ["x"], 1, true⟩]
            errors := ["Incorrect number of arguments passed"] }, CgOut.null)) ∧
    ((codegenExpr { emptyCG with module := [⟨"h", [], 0, true⟩] }
        (Expr.call "h" [])).2.isOk = true ↔
      (codegenArgs { emptyCG with module := [⟨"h", [], 0, true⟩] } []).2.isOk = true) := by
  refine ⟨?_, ?_, ?_⟩
  · exact (c8_call_arity emptyCG "f" []).1 rfl
  · exact (c8_call_arity { emptyCG with module := [⟨"g", ["x"], 1, true⟩] } "g" []).2.1
      ⟨"g", ["x"], 1, true⟩ rfl (by decide)
  · exact (c8_call_arity { emptyCG with module := [⟨"h", [], 0, true⟩] } "h" []).2.2
      ⟨"h", [], 0, true⟩ rfl rfl

/-! ## Claim C9 -/

/-- C9, counterexample: lowering `for x = 1, 1 in g()` in a scope where
`x ↦ slot 7` is bound: the body fails (unknown function `g`), the
lowering returns the NULL sentinel from inside the loop, and the symbol
table is left with `x` bound to the loop's alloca (slot 0) — the outer
binding is NOT restored on this exit path, refuting "restored on all
exit paths, including the paths where lowering the body ... fails". -/
theorem c9_counterexample :
    (codegenExpr { emptyCG with namedValues := [("x", 7)] }
        (Expr.for_ "x" (Expr.num 1) (Expr.num 1) none (Expr.call "g" []))).2
      = CgOut.null ∧
    (codegenExpr { emptyCG with namedValues := [("x", 7)] }
        (Expr.for_ "x" (Expr.num 1) (Expr.num 1) none (Expr.call "g" []))).1.namedValues
      = [("x", 0)] ∧
    [("x", 0)] ≠ [("x", 7)] := by
  refine ⟨?_, ?_, by decide⟩ <;>
    simp [codegenExpr, codegenForStep, createEntryBlockAlloca, emit, emitV, newBlock,
      nvLookup, nvSet, moduleGetFunction, errorValue, emptyCG]

/-- C9 (amended): the shadowed outer binding of the loop variable (and,
for `var`, of every bound name) is restored on every *successful* exit
from the scope; on the failure paths — body, step or end lowering
returning NULL — `ForExprAST::Codegen` (src/codegen.cc:194-208) returns
at once without restoring, which the spec's own concurrency section
exempts because the enclosing function is being torn down. -/
theorem c9_for_scope_restore (st : CGState) (vn : String) (start stop : Expr)
    (step : Option Expr) (body : Expr) (st' : CGState) (v : Value)
    (h : codegenExpr st (Expr.for_ vn start stop step body) = (st', CgOut.ok v)) :
    st'.namedValues = st.namedValues :=
  codegenExpr_ok_namedValues st _ st' v h

/-- Witness for C9: a successful `for x = 1, 1 in 5` lowered under the
outer binding `x ↦ 7` leaves the symbol table exactly as it was. -/
theorem c9_for_scope_restore_witness :
    (codegenExpr { emptyCG with namedValues := [("x", 7)] }
        (Expr.for_ "x" (Expr.num 1) (Expr.num 1) none (Expr.num 5))).1.namedValues
      = [("x", 7)] := by
  have h : codegenExpr { emptyCG with namedValues := [("x", 7)] }
      (Expr.for_ "x" (Expr.num 1) (Expr.num 1) none (Expr.num 5))
      = ((codegenExpr { emptyCG with namedValues := [("x", 7)] }
          (Expr.for_ "x" (Expr.num 1) (Expr.num 1) none (Expr.num 5))).1,
        CgOut.ok (Value.constFP 0)) := by
    simp [codegenExpr, codegenForStep, createEntryBlockAlloca, emit, emitV, newBlock,
      nvLookup, nvSet, emptyCG]
  exact c9_for_scope_restore _ "x" _ _ none _ _ _ h


/-! ## Claim C10 -/

/-- C10: when the module holds `name` only as a body-less declaration
(left by a prior `extern`) and a later `def` of the same name and arity
has a body that fails to lower (the NULL sentinel), `FunctionAST::Codegen`
erases the shared function object (src/codegen.cc:333, whose own TODO
notes "this can delete a forward declaration"): the declaration is gone
from the module, and every subsequent call to that name fails with
"Unknown function referenced" instead of finding the declaration. -/
theorem c10_failed_body_erases_declaration
    (table : Table) (st : CGState) (fn : FunctionAST) (f : FuncRec)
    (hf : moduleGetFunction st.module fn.proto.name = some f)
    (hempty : f.isEmpty = true)
    (harity : f.arity = fn.proto.args.length)
    (hfail : (functionCodegen table st fn).2.2 = CgOut.null) :
    moduleGetFunction ((functionCodegen table st fn).2.1).module fn.proto.name = none ∧
    ∀ cargs, codegenExpr (functionCodegen table st fn).2.1
        (Expr.call fn.proto.name cargs)
      = ({ (functionCodegen table st fn).2.1 with errors :=
            ((functionCodegen table st fn).2.1).errors ++ ["Unknown function referenced"] },
          CgOut.null) := by
  have hp := (prototypeCodegen_existing { st with namedValues := [] } fn.proto f hf).1
    hempty harity
  unfold functionCodegen at hfail ⊢
  dsimp only [] at hfail ⊢
  dsimp only [] at hp
  rw [hp] at hfail ⊢
  dsimp only [] at hfail ⊢
  split at hfail
  · simp_all
  · rename_i stB hB
    simp only [hB]
    constructor
    · exact moduleGetFunction_erase_self _ _
    · intro cargs
      rw [codegenExpr.eq_def]
      simp [moduleGetFunction_erase_self, errorValue]
  · simp_all

/-- Witness for C10: `extern f(x)` (module holds the declaration), then
`def f(x) g()` whose body fails; afterwards `f` is gone and `f(1)`
reports "Unknown function referenced". -/
theorem c10_failed_body_erases_declaration_witness :
    moduleGetFunction ((functionCodegen preloadedTable
        { emptyCG with module := [⟨"f", ["x"], 1, true⟩] }
        ⟨⟨"f", ["x"], false, 0⟩, Expr.call "g" []⟩).2.1).module "f" = none ∧
    codegenExpr (functionCodegen preloadedTable
        { emptyCG with module := [⟨"f", ["x"], 1, true⟩] }
        ⟨⟨"f", ["x"], false, 0⟩, Expr.call "g" []⟩).2.1 (Expr.call "f" [Expr.num 1])
      = ({ (functionCodegen preloadedTable
            { emptyCG with module := [⟨"f", ["x"], 1, true⟩] }
            ⟨⟨"f", ["x"], false, 0⟩, Expr.call "g" []⟩).2.1 with errors :=
            ((functionCodegen preloadedTable
              { emptyCG with module := [⟨"f", ["x"], 1, true⟩] }
              ⟨⟨"f", ["x"], false, 0⟩, Expr.call "g" []⟩).2.1).errors
              ++ ["Unknown function referenced"] },
          CgOut.null) := by
  have h := c10_failed_body_erases_declaration preloadedTable
    { emptyCG with module := [⟨"f", ["x"], 1, true⟩] }
    ⟨⟨"f", ["x"], false, 0⟩, Expr.call "g" []⟩ ⟨"f", ["x"], 1, true⟩ rfl rfl rfl
    (by simp [functionCodegen, prototypeCodegen, createArgumentAllocas, codegenExpr,
      moduleGetFunction, moduleSetArgs, moduleSetNonEmpty, newBlock, emitV, emit,
      createEntryBlockAlloca, nvSet, errorValue, emptyCG, PrototypeAST.isBinaryOp])
  exact ⟨h.1, h.2 [Expr.num 1]⟩


/-! ## Claim C2 -/

/-- C2 (spec-modelled: `VarExprAST::Codegen` is declared in src/ast.h:124
but src/ carries no definition of it; `varCodegen` models spec §4.C):
lowering `Var(bindings, body)` evaluates every binding's initializer in
the *outer* scope — the initializer phase hands the symbol table back
unchanged, so no bound name becomes visible before all initializers are
evaluated — then installs the names saving any shadowed bindings, lowers
the body in the extended scope, restores all shadowed bindings (the
final symbol table is the outer one again), and yields the body's
value. -/
theorem c2_var_scoping (st : CGState) (bs : List (String × Option Expr)) (body : Expr)
    (st1 : CGState) (slots : List (String × Nat))
    (hinits : varLowerInits st bs = (st1, CgOut.ok slots))
    (st2 : CGState) (v : Value)
    (hbody : codegenExpr { st1 with
        namedValues := (varInstall st1.namedValues slots).2 } body = (st2, CgOut.ok v)) :
    st1.namedValues = st.namedValues ∧
    varCodegen st bs body = ({ st2 with namedValues := st.namedValues }, CgOut.ok v) := by
  have e1 := varLowerInits_namedValues bs st st1 slots hinits
  refine ⟨e1, ?_⟩
  have e2 := codegenExpr_ok_namedValues _ body st2 v hbody
  try (dsimp only [] at e2)
  rw [varCodegen.eq_def]
  simp only [hinits]
  try (dsimp only [])
  simp only [hbody]
  simp only [e2, varRestore_varInstall, e1]

/-- Witness for C2: `var a = 2, b in a` lowered in the outer scope
`a ↦ slot 100`: both initializers run in the outer scope, the body reads
the new `a` (slot 0), and the outer binding of `a` is restored. -/
theorem c2_var_scoping_witness :
    (⟨[("a", 100)], [], [], 2,
        [Instr.alloca 0 "a", Instr.store (Value.constFP 2) 0,
         Instr.alloca 1 "b", Instr.store (Value.constFP 0) 1], 0, ""⟩ : CGState).namedValues
      = (⟨[("a", 100)], [], [], 0, [], 0, ""⟩ : CGState).namedValues ∧
    varCodegen (⟨[("a", 100)], [], [], 0, [], 0, ""⟩ : CGState)
        [("a", some (Expr.num 2)), ("b", none)] (Expr.var "a")
      = ({ (⟨[("a", 0), ("b", 1)], [], [], 3,
            [Instr.alloca 0 "a", Instr.store (Value.constFP 2) 0,
             Instr.alloca 1 "b", Instr.store (Value.constFP 0) 1,
             Instr.load 2 0 "a"], 0, ""⟩ : CGState) with
            namedValues := (⟨[("a", 100)], [], [], 0, [], 0, ""⟩ : CGState).namedValues },
          CgOut.ok (Value.instr 2)) := by
  exact c2_var_scoping (⟨[("a", 100)], [], [], 0, [], 0, ""⟩ : CGState)
    [("a", some (Expr.num 2)), ("b", none)] (Expr.var "a")
    (⟨[("a", 100)], [], [], 2,
        [Instr.alloca 0 "a", Instr.store (Value.constFP 2) 0,
         Instr.alloca 1 "b", Instr.store (Value.constFP 0) 1], 0, ""⟩ : CGState)
    [("a", 0), ("b", 1)]
    (by simp [varLowerInits, varLowerOneInit, codegenExpr, createEntryBlockAlloca,
      emit, emitV])
    (⟨[("a", 0), ("b", 1)], [], [], 3,
        [Instr.alloca 0 "a", Instr.store (Value.constFP 2) 0,
         Instr.alloca 1 "b", Instr.store (Value.constFP 0) 1,
         Instr.load 2 0 "a"], 0, ""⟩ : CGState)
    (Value.instr 2)
    (by simp [codegenExpr, varInstall, nvLookup, nvSet, emit])


/-! ## Claim C5 -/

/-- `getOperatorName` of a parsed binary-operator prototype is the
operator character (the name is `"binary"` + the character). -/
theorem getOperatorName_push (op : Char) (args : List String) (iso : Bool) (prec : Nat) :
    (⟨"binary".push op, args, iso, prec⟩ : PrototypeAST).getOperatorName = op := by
  simp [PrototypeAST.getOperatorName, String.push]

/-- Parsing `a OP b` (number primaries, stream ending at EOF) under any
table that maps `OP` to a positive precedence yields `Binary(OP, a, b)`
and leaves the table unchanged. -/
theorem parse_simple_binop (T : Table) (op : Char) (p : Int) (errs : List String)
    (hop : op.toNat ≤ 127) (hl : tableLookup T op = some p) (hp : 1 ≤ p) (a b : ℚ) :
    parseExpression 6 ⟨[Token.tok_number a, Token.tok_char op, Token.tok_number b], T, errs⟩
      = (some (Expr.bin op (Expr.num a) (Expr.num b)), ⟨[], T, errs⟩) := by
  have h1 : ¬(p ≤ 0) := by omega
  have h2 : ¬(p < 0) := by omega
  have h3 : ¬(p < -1) := by omega
  simp [parseExpression, parseUnary, parsePrimary, parseBinOpRHS, getTokPrecedence,
    isasciiTok, tableGetDefault, curTok, eat, hl, hop, h1, h2, h3]

/-- C5: after `FunctionAST::Codegen` succeeds on a definition
`def binary OP PREC (x y) body`, the operator table maps `OP` to `PREC`,
so a later expression `a OP b` parses as `Binary(OP, a, b)` with that
precedence; when the prototype was accepted but the body failed to
lower, the entry for `OP` is erased — no such operator exists in the
table afterwards. -/
theorem c5_operator_table (table : Table) (st : CGState) (body : Expr)
    (op : Char) (x y : String) (prec : Nat)
    (hop : op.toNat ≤ 127) (hprec : 1 ≤ prec) :
    (∀ fname,
      (functionCodegen table st ⟨⟨"binary".push op, [x, y], true, prec⟩, body⟩).2.2
        = CgOut.ok fname →
      tableLookup
          (functionCodegen table st ⟨⟨"binary".push op, [x, y], true, prec⟩, body⟩).1 op
        = some (prec : Int) ∧
      ∀ (a b : ℚ) (errs : List String),
        parseExpression 6 ⟨[Token.tok_number a, Token.tok_char op, Token.tok_number b],
            (functionCodegen table st ⟨⟨"binary".push op, [x, y], true, prec⟩, body⟩).1, errs⟩
          = (some (Expr.bin op (Expr.num a) (Expr.num b)),
             ⟨[], (functionCodegen table st ⟨⟨"binary".push op, [x, y], true, prec⟩, body⟩).1,
               errs⟩)) ∧
    ((prototypeCodegen { st with namedValues := [] }
        ⟨"binary".push op, [x, y], true, prec⟩).2.isSome = true →
      (functionCodegen table st ⟨⟨"binary".push op, [x, y], true, prec⟩, body⟩).2.2
        = CgOut.null →
      tableLookup
          (functionCodegen table st ⟨⟨"binary".push op, [x, y], true, prec⟩, body⟩).1 op
        = none) := by
  have hbin : (⟨"binary".push op, [x, y], true, prec⟩ : PrototypeAST).isBinaryOp = true := rfl
  constructor
  · intro fname hok
    unfold functionCodegen at hok ⊢
    dsimp only [] at hok ⊢
    cases hP : prototypeCodegen { st with namedValues := [] }
        ⟨"binary".push op, [x, y], true, prec⟩ with
    | mk stP r =>
      cases r with
      | none => rw [hP] at hok; simp at hok
      | some fname2 =>
        rw [hP] at hok
        dsimp only [] at hok ⊢
        simp only [hbin, getOperatorName_push, ite_true, if_true, reduceIte] at hok ⊢
        split at hok
        · rename_i stB rv hB
          simp only [hB]
          refine ⟨tableLookup_tableSet_self table op (prec : Int), ?_⟩
          intro a b errs
          exact parse_simple_binop _ op (prec : Int) errs hop
            (tableLookup_tableSet_self table op (prec : Int)) (by exact_mod_cast hprec) a b
        · simp_all
        · simp_all
  · intro hsome hnull
    unfold functionCodegen at hnull ⊢
    dsimp only [] at hnull ⊢
    cases hP : prototypeCodegen { st with namedValues := [] }
        ⟨"binary".push op, [x, y], true, prec⟩ with
    | mk stP r =>
      cases r with
      | none => rw [hP] at hsome; simp at hsome
      | some fname2 =>
        rw [hP] at hnull
        dsimp only [] at hnull ⊢
        simp only [hbin, getOperatorName_push, ite_true, if_true, reduceIte] at hnull ⊢
        split at hnull
        · simp_all
        · rename_i stB hB
          simp only [hB]
          exact tableLookup_tableErase_self _ op
        · simp_all


/-- Witness for C5 at `def binary % 3 (x y) 1` (success: `%` installed at
precedence 3 and `1 % 2` parses) and `def binary % 3 (x y) g()` (body
fails: `%` rolled back). -/
theorem c5_operator_table_witness :
    tableLookup (functionCodegen preloadedTable emptyCG
        ⟨⟨"binary".push '%', ["x", "y"], true, 3⟩, Expr.num 1⟩).1 '%' = some 3 ∧
    parseExpression 6 ⟨[Token.tok_number 1, Token.tok_char '%', Token.tok_number 2],
        (functionCodegen preloadedTable emptyCG
          ⟨⟨"binary".push '%', ["x", "y"], true, 3⟩, Expr.num 1⟩).1, []⟩
      = (some (Expr.bin '%' (Expr.num 1) (Expr.num 2)),
         ⟨[], (functionCodegen preloadedTable emptyCG
            ⟨⟨"binary".push '%', ["x", "y"], true, 3⟩, Expr.num 1⟩).1, []⟩) ∧
    tableLookup (functionCodegen preloadedTable emptyCG
        ⟨⟨"binary".push '%', ["x", "y"], true, 3⟩, Expr.call "g" []⟩).1 '%' = none := by
  have h1 := (c5_operator_table preloadedTable emptyCG (Expr.num 1) '%' "x" "y" 3
      (by decide) (by decide)).1 ("binary".push '%')
    (by simp [functionCodegen, prototypeCodegen, moduleGetFunction, createArgumentAllocas,
      codegenExpr, createEntryBlockAlloca, emit, emitV, newBlock, nvSet,
      moduleSetNonEmpty, emptyCG])
  have hne : ("binary".push '%') ≠ "g" := by decide
  have h2 := (c5_operator_table preloadedTable emptyCG (Expr.call "g" []) '%' "x" "y" 3
      (by decide) (by decide)).2
    (by simp [prototypeCodegen, moduleGetFunction, emptyCG])
    (by simp [functionCodegen, prototypeCodegen, moduleGetFunction, createArgumentAllocas,
      codegenExpr, createEntryBlockAlloca, emit, emitV, newBlock, nvSet,
      moduleSetNonEmpty, errorValue, emptyCG, hne])
  exact ⟨h1.1, h1.2 1 2 [], h2⟩

theorem parseProtoRest_precedence (st : PState) (fnName : String) (kind binPrec : Nat)
    (p : PrototypeAST) (st' : PState)
    (h : parseProtoRest st fnName kind binPrec = (some p, st')) :
    p.precedence = binPrec := by
  unfold parseProtoRest perrorProto at h
  try dsimp only [] at h
  split at h
  · exact absurd h (by simp)
  · try dsimp only [] at h
    split at h
    · exact absurd h (by simp)
    · try dsimp only [] at h
      split at h
      · exact absurd h (by simp)
      · simp only [Prod.mk.injEq, Option.some.injEq] at h
        rw [← h.1]

theorem parsePrototype_operator_precedence_pos (st : PState) (p : PrototypeAST) (st' : PState)
    (h : parsePrototype st = (some p, st')) : 1 ≤ p.precedence := by
  unfold parsePrototype at h
  split at h
  · have := parseProtoRest_precedence _ _ _ _ _ _ h
    omega
  · try dsimp only [] at h
    split at h
    · exact absurd h (by simp [perrorProto])
    · have := parseProtoRest_precedence _ _ _ _ _ _ h
      omega
  · try dsimp only [] at h
    split at h
    · exact absurd h (by simp [perrorProto])
    · try dsimp only [] at h
      split at h
      · rename_i v hv
        try dsimp only [] at h
        split at h
        · exact absurd h (by simp [perrorProto])
        · rename_i hrange
          have := parseProtoRest_precedence _ _ _ _ _ _ h
          rw [this]
          simp only [Bool.or_eq_true, decide_eq_true_eq, not_or] at hrange
          have h1 : (1 : ℚ) ≤ v := le_of_not_lt hrange.1
          have h2 : (1 : Int) ≤ v.floor := Rat.le_floor.mpr (by exact_mod_cast h1)
          omega
      · have := parseProtoRest_precedence _ _ _ _ _ _ h
        omega
  · exact absurd h (by simp [perrorProto])

/-! ## Claim C3 -/

/-- C3, counterexample: parsing the token stream of `4 ;` makes
`GetTokPrecedence` read `BinopPrecedence[';']`; `std::map::operator[]`
default-inserts the entry `(';', 0)`, so the table reached after this
single parse — reachable, as recorded by `TableReach` — contains a key
whose precedence is ≤ 0, refuting the claimed invariant. -/
theorem c3_counterexample :
    (parseExpression 3 ⟨[Token.tok_number 4, Token.tok_char ';'], preloadedTable, []⟩).2.table
      = preloadedTable ++ [(';', 0)] ∧
    TableReach (preloadedTable ++ [(';', 0)]) ∧
    (';', (0 : Int)) ∈ preloadedTable ++ [(';', 0)] ∧ (0 : Int) ≤ 0 := by
  refine ⟨?_, ?_, by decide, by decide⟩
  · simp [parseExpression, parseUnary, parsePrimary, parseBinOpRHS, getTokPrecedence,
      isasciiTok, tableGetDefault, tableLookup, curTok, eat, preloadedTable]
  · have h : (getTokPrecedence preloadedTable (Token.tok_char ';')).2
        = preloadedTable ++ [(';', 0)] := by decide
    exact h ▸ TableReach.lookup _ _ TableReach.preloaded

/-- C3 (amended): over every table reachable from the preloaded one by
the program's operations (precedence lookups, parser-validated operator
installs, rollbacks), no key has a *negative* precedence; keys with
precedence exactly 0 do occur — default-inserted by `operator[]` during
lookups of non-operator characters — and `GetTokPrecedence` treats any
such entry as "not a binary operator": its result is always -1 or a
positive precedence. -/
theorem c3_table_invariant (t : Table) (h : TableReach t) :
    (∀ e ∈ t, (0 : Int) ≤ e.2) ∧
    (∀ tok, (getTokPrecedence t tok).1 = -1 ∨ 1 ≤ (getTokPrecedence t tok).1) := by
  constructor
  · induction h with
    | preloaded => decide
    | lookup t tok ht ih =>
      intro e he
      rcases mem_getTokPrecedence t tok e he with h2 | h2
      · exact ih e h2
      · omega
    | install t c p ht hp ih =>
      intro e he
      rcases mem_tableSet t c p e he with h2 | h2
      · rw [h2]; omega
      · exact ih e h2
    | rollback t c ht ih =>
      intro e he
      exact ih e (mem_tableErase t c e he)
  · intro tok
    unfold getTokPrecedence
    cases hA : isasciiTok tok with
    | none => exact Or.inl rfl
    | some c =>
      dsimp only []
      by_cases hc : (tableGetDefault t c).1 ≤ 0
      · rw [if_pos hc]; exact Or.inl rfl
      · rw [if_neg hc]; right; omega

/-- Witness for C3 at the table reached by one `';'` lookup from the
preloaded table: its zero entry is non-negative, and `GetTokPrecedence`
on `';'` still reports "not a binary operator". -/
theorem c3_table_invariant_witness :
    (0 : Int) ≤ ((';', (0 : Int)) : Char × Int).2 ∧
    ((getTokPrecedence (getTokPrecedence preloadedTable (Token.tok_char ';')).2
        (Token.tok_char ';')).1 = -1 ∨
      1 ≤ (getTokPrecedence (getTokPrecedence preloadedTable (Token.tok_char ';')).2
        (Token.tok_char ';')).1) :=
  ⟨(c3_table_invariant _
      (TableReach.lookup preloadedTable (Token.tok_char ';') TableReach.preloaded)).1
      (';', 0) (by decide),
   (c3_table_invariant _
      (TableReach.lookup preloadedTable (Token.tok_char ';') TableReach.preloaded)).2
      (Token.tok_char ';')⟩

theorem getTokPrecedence_eof (tbl : Table) :
    getTokPrecedence tbl Token.tok_eof = (-1, tbl) := rfl

theorem getTokPrecedence_of_pos (tbl : Table) (c : Char) (hc : c.toNat ≤ 127)
    (hp : 1 ≤ precOf tbl c) :
    getTokPrecedence tbl (Token.tok_char c) = (precOf tbl c, tbl) := by
  have hL : ∃ v, tableLookup tbl c = some v ∧ 1 ≤ v := by
    unfold precOf at hp
    cases hL : tableLookup tbl c with
    | none => rw [hL] at hp; norm_num at hp
    | some v => rw [hL] at hp; exact ⟨v, rfl, hp⟩
  obtain ⟨v, hv, h1⟩ := hL
  have hpv : precOf tbl c = v := by unfold precOf; rw [hv]
  rw [hpv]
  simp only [getTokPrecedence, isasciiTok, tableGetDefault, hv, hc, if_pos]
  rw [if_neg (by omega : ¬ v ≤ 0)]

theorem getTokPrecedence_tailToks (tbl : Table) (rest : List (Char × ℚ))
    (hops : ∀ pr ∈ rest, pr.1.toNat ≤ 127 ∧ 1 ≤ precOf tbl pr.1) :
    ∃ q2 : Int,
      getTokPrecedence tbl (curTok (tailToks rest)) = (q2, tbl) ∧
      (rest = [] → q2 = -1) ∧
      (∀ pr, rest.head? = some pr → q2 = precOf tbl pr.1 ∧ 1 ≤ q2) := by
  cases rest with
  | nil => exact ⟨-1, rfl, fun _ => rfl, by simp⟩
  | cons pr rest' =>
    obtain ⟨h1, h2⟩ := hops pr (List.mem_cons_self _ _)
    refine ⟨precOf tbl pr.1, ?_, by simp, ?_⟩
    · cases pr with
      | mk op b =>
        simpa [tailToks, curTok] using getTokPrecedence_of_pos tbl op h1 h2
    · intro pr' hpr'
      simp only [List.head?_cons, Option.some.injEq] at hpr'
      subst hpr'
      exact ⟨rfl, h2⟩

theorem parseUnary_num (fuel : Nat) (h : 2 ≤ fuel) (b : ℚ) (ts : List Token)
    (tbl : Table) (errs : List String) :
    parseUnary fuel ⟨Token.tok_number b :: ts, tbl, errs⟩
      = (some (Expr.num b), ⟨ts, tbl, errs⟩) := by
  obtain ⟨f, rfl⟩ : ∃ f, fuel = f + 2 := ⟨fuel - 2, by omega⟩
  simp [parseUnary, parsePrimary, isasciiTok, curTok, eat]


set_option maxHeartbeats 4000000 in
theorem parseBinOpRHS_pratt (fuel : Nat) :
    ∀ (ps : List (Char × ℚ)) (minPrec : Int) (lhs : Expr) (tbl : Table) (errs : List String),
    2 * ps.length + 1 ≤ fuel →
    0 ≤ minPrec →
    (∀ pr ∈ ps, pr.1.toNat ≤ 127 ∧ 1 ≤ precOf tbl pr.1) →
    prattOKb tbl lhs = true →
    (∀ o ∈ exprOps lhs, minPrec ≤ precOf tbl o) →
    (∀ pr, ps.head? = some pr → ∀ o ∈ exprOps lhs, precOf tbl pr.1 ≤ precOf tbl o) →
    ∃ qs rs T,
      ps = qs ++ rs ∧
      parseBinOpRHS fuel minPrec lhs ⟨tailToks ps, tbl, errs⟩
        = (some T, ⟨tailToks rs, tbl, errs⟩) ∧
      exprAtoms T = exprAtoms lhs ++ qs.map Prod.snd ∧
      exprOps T = exprOps lhs ++ qs.map Prod.fst ∧
      prattOKb tbl T = true ∧
      (∀ o ∈ exprOps T, minPrec ≤ precOf tbl o) ∧
      (∀ pr, rs.head? = some pr → precOf tbl pr.1 < minPrec) := by
  induction fuel with
  | zero => intro ps _ _ _ _ hf; omega
  | succ fuel ih =>
    intro ps minPrec lhs tbl errs hf hmin hops hpratt hlmin hlhead
    cases ps with
    | nil =>
      have heval : parseBinOpRHS (fuel + 1) minPrec lhs ⟨tailToks [], tbl, errs⟩
          = (some lhs, ⟨tailToks [], tbl, errs⟩) := by
        simp only [parseBinOpRHS, tailToks, curTok, List.headD_nil, getTokPrecedence_eof]
        rw [if_pos (by omega : (-1 : Int) < minPrec)]
      exact ⟨[], [], lhs, rfl, heval, by simp, by simp, hpratt, hlmin, by simp⟩
    | cons hd rest =>
      obtain ⟨op, b⟩ := hd
      obtain ⟨hop127x, hopposx⟩ := hops (op, b) (List.mem_cons_self _ _)
      have hop127 : op.toNat ≤ 127 := hop127x
      have hoppos : 1 ≤ precOf tbl op := hopposx
      have hlheadop : ∀ o ∈ exprOps lhs, precOf tbl op ≤ precOf tbl o :=
        fun o ho => hlhead (op, b) rfl o ho
      by_cases hlt : precOf tbl op < minPrec
      · have heval : parseBinOpRHS (fuel + 1) minPrec lhs
            ⟨tailToks ((op, b) :: rest), tbl, errs⟩
            = (some lhs, ⟨tailToks ((op, b) :: rest), tbl, errs⟩) := by
          simp only [parseBinOpRHS, tailToks, curTok, List.headD_cons,
            getTokPrecedence_of_pos tbl op hop127 hoppos]
          rw [if_pos hlt]
        refine ⟨[], (op, b) :: rest, lhs, rfl, heval, by simp, by simp, hpratt, hlmin, ?_⟩
        intro pr hpr
        simp only [List.head?_cons, Option.some.injEq] at hpr
        subst hpr
        exact hlt
      · push_neg at hlt
        have hfu : 2 ≤ fuel := by simp only [List.length_cons] at hf; omega
        have hU := parseUnary_num fuel hfu b (tailToks rest) tbl errs
        obtain ⟨q2, hq2, hq2nil, hq2head⟩ :=
          getTokPrecedence_tailToks tbl rest (fun pr h => hops pr (List.mem_cons_of_mem _ h))
        have hiso : isasciiTok (Token.tok_char op) = some op := by
          simp [isasciiTok, hop127]
        have hq2x : getTokPrecedence tbl ((tailToks rest).headD Token.tok_eof) = (q2, tbl) := hq2
        by_cases hcl : precOf tbl op < q2
        · obtain ⟨qs1, rs1, T1, hsplit1, hrun1, hat1, hopl1, hpr1, hmin1, hstop1⟩ :=
            ih rest (precOf tbl op + 1) (Expr.num b) tbl errs
              (by simp only [List.length_cons] at hf; omega)
              (by omega)
              (fun pr h => hops pr (List.mem_cons_of_mem _ h))
              rfl
              (by simp [exprOps])
              (by simp [exprOps])
          have hprbin : prattOKb tbl (Expr.bin op lhs T1) = true := by
            simp only [prattOKb, Bool.and_eq_true, List.all_eq_true, decide_eq_true_eq]
            refine ⟨⟨⟨hpratt, hpr1⟩, ?_⟩, ?_⟩
            · intro o ho; exact hlheadop o ho
            · intro o ho; have := hmin1 o ho; omega
          have hminbin : ∀ o ∈ exprOps (Expr.bin op lhs T1), minPrec ≤ precOf tbl o := by
            intro o ho
            simp only [exprOps, List.mem_append, List.mem_cons] at ho
            rcases ho with ho | ho | ho
            · exact hlmin o ho
            · subst ho; exact hlt
            · have := hmin1 o ho; omega
          have hheadbin : ∀ pr, rs1.head? = some pr →
              ∀ o ∈ exprOps (Expr.bin op lhs T1), precOf tbl pr.1 ≤ precOf tbl o := by
            intro pr hpr o ho
            have hps := hstop1 pr hpr
            simp only [exprOps, List.mem_append, List.mem_cons] at ho
            rcases ho with ho | ho | ho
            · have := hlheadop o ho; omega
            · subst ho; omega
            · have := hmin1 o ho; omega
          obtain ⟨qs2, rs2, T2, hsplit2, hrun2, hat2, hopl2, hpr2, hmin2, hstop2⟩ :=
            ih rs1 minPrec (Expr.bin op lhs T1) tbl errs
              (by
                have : rs1.length ≤ rest.length := by
                  rw [hsplit1]; simp
                simp only [List.length_cons] at hf; omega)
              hmin
              (fun pr h => hops pr (List.mem_cons_of_mem _
                (by rw [hsplit1]; exact List.mem_append_right _ h)))
              hprbin hminbin hheadbin
          have heval : parseBinOpRHS (fuel + 1) minPrec lhs
              ⟨tailToks ((op, b) :: rest), tbl, errs⟩
              = (some T2, ⟨tailToks rs2, tbl, errs⟩) := by
            simp only [parseBinOpRHS, tailToks, curTok, List.headD_cons,
              getTokPrecedence_of_pos tbl op hop127 hoppos, hiso]
            rw [if_neg (not_lt.mpr hlt)]
            simp only [eat, List.tail_cons, hU, hq2x]
            rw [if_pos hcl]
            simp only [hrun1, hrun2]
          refine ⟨(op, b) :: (qs1 ++ qs2), rs2, T2, ?_, heval, ?_, ?_, hpr2, hmin2, hstop2⟩
          · rw [List.cons_append, hsplit1, hsplit2, List.append_assoc]
          · rw [hat2]
            simp [exprAtoms, hat1]
          · rw [hopl2]
            simp [exprOps, hopl1]
        · have hprbin : prattOKb tbl (Expr.bin op lhs (Expr.num b)) = true := by
            simp only [prattOKb, Bool.and_eq_true, List.all_eq_true, decide_eq_true_eq]
            refine ⟨⟨⟨hpratt, trivial⟩, ?_⟩, ?_⟩
            · intro o ho; exact hlheadop o ho
            · intro o ho; simp [exprOps] at ho
          have hminbin : ∀ o ∈ exprOps (Expr.bin op lhs (Expr.num b)),
              minPrec ≤ precOf tbl o := by
            intro o ho
            simp only [exprOps, List.mem_append, List.mem_cons] at ho
            rcases ho with ho | ho | ho
            · exact hlmin o ho
            · subst ho; exact hlt
            · simp [exprOps] at ho
          have hheadbin : ∀ pr, rest.head? = some pr →
              ∀ o ∈ exprOps (Expr.bin op lhs (Expr.num b)),
                precOf tbl pr.1 ≤ precOf tbl o := by
            intro pr hpr o ho
            obtain ⟨hq2eq, _⟩ := hq2head pr hpr
            simp only [exprOps, List.mem_append, List.mem_cons] at ho
            rcases ho with ho | ho | ho
            · have := hlheadop o ho; omega
            · subst ho; omega
            · simp [exprOps] at ho
          obtain ⟨qs2, rs2, T2, hsplit2, hrun2, hat2, hopl2, hpr2, hmin2, hstop2⟩ :=
            ih rest minPrec (Expr.bin op lhs (Expr.num b)) tbl errs
              (by simp only [List.length_cons] at hf; omega)
              hmin
              (fun pr h => hops pr (List.mem_cons_of_mem _ h))
              hprbin hminbin hheadbin
          have heval : parseBinOpRHS (fuel + 1) minPrec lhs
              ⟨tailToks ((op, b) :: rest), tbl, errs⟩
              = (some T2, ⟨tailToks rs2, tbl, errs⟩) := by
            simp only [parseBinOpRHS, tailToks, curTok, List.headD_cons,
              getTokPrecedence_of_pos tbl op hop127 hoppos, hiso]
            rw [if_neg (not_lt.mpr hlt)]
            simp only [eat, List.tail_cons, hU, hq2x]
            rw [if_neg hcl]
            simp only [hrun2]
          refine ⟨(op, b) :: qs2, rs2, T2, ?_, heval, ?_, ?_, hpr2, hmin2, hstop2⟩
          · rw [List.cons_append, hsplit2]
          · rw [hat2]
            simp [exprAtoms]
          · rw [hopl2]
            simp [exprOps]


/-- C7: for a binary expression `a₁ op₁ a₂ … opₙ aₙ₊₁` whose primaries are
number literals and whose operators all carry a table precedence ≥ 1, the
parser (given enough fuel) consumes the whole stream and produces a tree
whose leaves and operators appear in source order and which satisfies
Pratt's rule as captured by `prattOKb`: a node `(l op r)` groups exactly
when every operator below it on the left binds at least as tightly as
`op` (equal precedences associate to the left) and every operator below
it on the right binds strictly tighter — no intervening operator of
strictly higher precedence than `op` is left outside the grouping. -/
theorem c7_precedence_grouping (a : ℚ) (ps : List (Char × ℚ)) (tbl : Table)
    (errs : List String) (fuel : Nat)
    (hf : 2 * ps.length + 4 ≤ fuel)
    (hops : ∀ pr ∈ ps, pr.1.toNat ≤ 127 ∧ 1 ≤ precOf tbl pr.1) :
    ∃ T, parseExpression fuel ⟨exprToks a ps, tbl, errs⟩ = (some T, ⟨[], tbl, errs⟩) ∧
      exprAtoms T = a :: ps.map Prod.snd ∧
      exprOps T = ps.map Prod.fst ∧
      prattOKb tbl T = true := by
  obtain ⟨f, rfl⟩ : ∃ f, fuel = f + 1 := ⟨fuel - 1, by omega⟩
  have hU := parseUnary_num f (by omega) a (tailToks ps) tbl errs
  obtain ⟨qs, rs, T, hsplit, hrun, hat, hopsT, hpr, hmin, hstop⟩ :=
    parseBinOpRHS_pratt f ps 0 (Expr.num a) tbl errs (by omega) le_rfl hops rfl
      (by simp [exprOps]) (by simp [exprOps])
  have hrs : rs = [] := by
    cases rs with
    | nil => rfl
    | cons pr rs' =>
      have h1 := hstop pr (by simp)
      have h2 := (hops pr (by
        rw [hsplit]; exact List.mem_append_right _ (List.mem_cons_self _ _))).2
      omega
  subst hrs
  have hqs : qs = ps := by rw [hsplit, List.append_nil]
  subst hqs
  refine ⟨T, ?_, ?_, ?_, hpr⟩
  · simp only [parseExpression, exprToks, hU, hrun, tailToks]
  · rw [hat]; simp [exprAtoms]
  · rw [hopsT]; simp [exprOps]

/-- Witness for C7 on the preloaded table at `1 + 2 * 3 < 4`: the parse
succeeds, the leaves and operators come out in source order, and the
produced tree satisfies Pratt's grouping rule. -/
theorem c7_precedence_grouping_witness :
    exprAtoms (((parseExpression 10
        ⟨exprToks 1 [('+', 2), ('*', 3), ('<', 4)], preloadedTable, []⟩).1).getD
        (Expr.num 0)) = [1, 2, 3, 4] ∧
    exprOps (((parseExpression 10
        ⟨exprToks 1 [('+', 2), ('*', 3), ('<', 4)], preloadedTable, []⟩).1).getD
        (Expr.num 0)) = ['+', '*', '<'] ∧
    prattOKb preloadedTable (((parseExpression 10
        ⟨exprToks 1 [('+', 2), ('*', 3), ('<', 4)], preloadedTable, []⟩).1).getD
        (Expr.num 0)) = true := by
  obtain ⟨T, h1, h2, h3, h4⟩ := c7_precedence_grouping 1 [('+', 2), ('*', 3), ('<', 4)]
    preloadedTable [] 10 (by decide) (by decide)
  rw [h1]
  refine ⟨?_, ?_, h4⟩
  · simp only [Option.getD_some]
    rw [h2]
    rfl
  · simp only [Option.getD_some]
    rw [h3]
    rfl

end Kaleidoscope
